import Mathlib

/-! LoadBalancer: dispatch-and-autoscale core

A shallow embedding of `Request.cpp`, `RequestQueue.cpp`, `Webserver.cpp` and
`LoadBalancer.cpp`, followed by theorems about the embedded functions.

Modelling conventions

* C++ `int` values are `Int`; `std::vector::size()` / `std::queue::size()` are list
  lengths.  Widths are not modelled: every arithmetic expression of the source
  (`size * 5`, `size * 2`, `currentServer + 1`, `8080 + size`, `taskTime--`) stays
  far inside the 32-bit range for any pool or queue that fits in memory.
* `std::queue<Request>` is a `List Request`, front of the queue = head of the list,
  `push` appends at the end, `pop` drops the head.
* `std::vector<WebServer*>` is a `List WebServer`; `push_back` appends at the end,
  `pop_back` is `dropLast`.
* Operations whose C++ behaviour is undefined on some input (`front()` / `pop()` on an
  empty queue, `servers[i]` with `i` out of range, `% 0`) return `Except Fault _` and
  raise the corresponding fault there.
* Console output, `WebServer::start` / `stop` (empty bodies) and the random sleep in
  `RequestQueue::process_next_request` do not touch the state and are left out.
* The field `LoadBalancer::numServers` is never initialised nor read and is left out.
-/

/-- Faults standing for the undefined behaviours the source can run into. -/
inductive Fault where
  | emptyQueue
  | indexOutOfRange
  | divideByZero
  deriving DecidableEq, Repr

/-! ## Request.h / Request.cpp -/

/-- Record of `class Request`: four strings and the `int taskTime` counter. -/
structure Request where
  method : String
  url : String
  headers : String
  body : String
  taskTime : Int
  deriving DecidableEq, Repr

namespace Request

/-- Default constructor `Request::Request()`: empty strings, `taskTime = 0`. -/
def new : Request :=
  { method := "", url := "", headers := "", body := "", taskTime := 0 }

/-- Source `Request::decrement_task_time`: `if (taskTime > 0) taskTime--;`. -/
def decrement_task_time (r : Request) : Request :=
  if r.taskTime > 0 then { r with taskTime := r.taskTime - 1 } else r

/-- Source `Request::is_completed`: `return taskTime <= 0;`. -/
def is_completed (r : Request) : Bool :=
  decide (r.taskTime ≤ 0)

/-- Source `Request::set_task_time`: `taskTime = time;`. -/
def set_task_time (r : Request) (time : Int) : Request :=
  { r with taskTime := time }

/-- Source `Request::get_task_time`: `return taskTime;`. -/
def get_task_time (r : Request) : Int :=
  r.taskTime

end Request

/-! ## RequestQueue.h / RequestQueue.cpp -/

/-- Record of `class RequestQueue`: the single member `queue<Request> requestQueue`. -/
structure RequestQueue where
  requestQueue : List Request
  deriving DecidableEq, Repr

namespace RequestQueue

/-- Constructor `RequestQueue::RequestQueue()`: an empty queue. -/
def new : RequestQueue :=
  { requestQueue := [] }

/-- Source `RequestQueue::add_request`: `requestQueue.push(request);`. -/
def add_request (q : RequestQueue) (request : Request) : RequestQueue :=
  { requestQueue := q.requestQueue ++ [request] }

/-- Source `RequestQueue::process_next_request`:
`if (!(requestQueue.empty())) requestQueue.pop();` (the sleep is left out). -/
def process_next_request (q : RequestQueue) : RequestQueue :=
  match q.requestQueue with
  | [] => q
  | _ :: rest => { requestQueue := rest }

/-- Source `RequestQueue::remove_request`: `requestQueue.pop();`, undefined on an
empty queue. -/
def remove_request (q : RequestQueue) : Except Fault RequestQueue :=
  match q.requestQueue with
  | [] => .error Fault.emptyQueue
  | _ :: rest => .ok { requestQueue := rest }

/-- Source `RequestQueue::is_empty`: `return requestQueue.empty();`. -/
def is_empty (q : RequestQueue) : Bool :=
  q.requestQueue.isEmpty

/-- Source `RequestQueue::get_size`: `return requestQueue.size();`. -/
def get_size (q : RequestQueue) : Int :=
  (q.requestQueue.length : Int)

/-- Source `RequestQueue::get_front_request`: `return requestQueue.front();`, undefined
on an empty queue. -/
def get_front_request (q : RequestQueue) : Except Fault Request :=
  match q.requestQueue with
  | [] => .error Fault.emptyQueue
  | front :: _ => .ok front

/-- Write through the reference returned by `get_front_request`: the front element is
replaced, the elements behind it are untouched. -/
def set_front_request (q : RequestQueue) (request : Request) : RequestQueue :=
  match q.requestQueue with
  | [] => q
  | _ :: rest => { requestQueue := request :: rest }

end RequestQueue

/-! ## Webserver.h / Webserver.cpp -/

/-- Record of `class WebServer`: the single member `int port`. -/
structure WebServer where
  port : Int
  deriving DecidableEq, Repr

namespace WebServer

/-- Source `WebServer::get_port`: `return port;`. -/
def get_port (s : WebServer) : Int :=
  s.port

/-- Source `WebServer::set_port`: `this->port = value;`. -/
def set_port (_s : WebServer) (value : Int) : WebServer :=
  { port := value }

end WebServer

/-! ## LoadBalancer.h / LoadBalancer.cpp -/

/-- Record of `class LoadBalancer` (without the never-used `numServers`). -/
structure LoadBalancer where
  servers : List WebServer
  requestQueue : RequestQueue
  currentServer : Int
  maxServers : Int
  activeServers : Int
  count : Int
  deriving DecidableEq, Repr

namespace LoadBalancer

/-- Constructor `LoadBalancer::LoadBalancer(initialServers, portBase, maxServers)`:
the loop `for (i = 0; i < initialServers; ++i) servers.push_back(new WebServer(portBase + i))`
runs `initialServers` times (not at all when `initialServers <= 0`); `currentServer`,
`activeServers` and `count` start at 0 and the queue is empty. -/
def new (initialServers portBase maxServers : Int) : LoadBalancer :=
  { servers := (List.range initialServers.toNat).map
      (fun (i : Nat) => WebServer.mk (portBase + (i : Int)))
    requestQueue := RequestQueue.new
    currentServer := 0
    maxServers := maxServers
    activeServers := 0
    count := 0 }

/-- Source `LoadBalancer::add_request`: `requestQueue.add_request(request);`. -/
def add_request (lb : LoadBalancer) (request : Request) : LoadBalancer :=
  { lb with requestQueue := lb.requestQueue.add_request request }

/-- Source `LoadBalancer::get_queue_size`: `return requestQueue.get_size();`. -/
def get_queue_size (lb : LoadBalancer) : Int :=
  lb.requestQueue.get_size

/-- Source `LoadBalancer::get_active_server_count`: `return activeServers;`. -/
def get_active_server_count (lb : LoadBalancer) : Int :=
  lb.activeServers

/-- Source `LoadBalancer::add_server`: below `maxServers`, push a server on port
`8080 + servers.size()` and increment `activeServers`; otherwise nothing. -/
def add_server (lb : LoadBalancer) : LoadBalancer :=
  if (lb.servers.length : Int) < lb.maxServers then
    let port : Int := 8080 + (lb.servers.length : Int)
    { lb with
      servers := lb.servers ++ [WebServer.mk port]
      activeServers := lb.activeServers + 1 }
  else lb

/-- Source `LoadBalancer::remove_server`: with more than one server, decrement
`activeServers`, decrement `currentServer` unless it is 0, and `pop_back` the vector;
otherwise nothing. -/
def remove_server (lb : LoadBalancer) : LoadBalancer :=
  if lb.servers.length > 1 then
    { lb with
      activeServers := lb.activeServers - 1
      currentServer := if lb.currentServer ≠ 0 then lb.currentServer - 1 else lb.currentServer
      servers := lb.servers.dropLast }
  else lb

/-- Source `LoadBalancer::adjust_servers`: grow when `queueSize > size * 5`, else shrink
when `queueSize < size * 2 && size > 1`. -/
def adjust_servers (lb : LoadBalancer) : LoadBalancer :=
  let queueSize := lb.get_queue_size
  if queueSize > (lb.servers.length : Int) * 5 then lb.add_server
  else if queueSize < (lb.servers.length : Int) * 2 ∧ lb.servers.length > 1 then lb.remove_server
  else lb

/-- Vector access `servers[i]` with an `int` index: undefined unless `0 <= i < size`. -/
def server_at (lb : LoadBalancer) (i : Int) : Except Fault WebServer :=
  if 0 ≤ i then
    match lb.servers.get? i.toNat with
    | some s => .ok s
    | none => .error Fault.indexOutOfRange
  else .error Fault.indexOutOfRange

end LoadBalancer

/-- Value of the local `WebServer* server` of `distribute_requests`: the index at which
the vector was read and the server found there (the server whose `start()`, `get_port()`
and `stop()` the tick calls). -/
structure Selection where
  index : Int
  server : WebServer
  deriving DecidableEq, Repr

namespace LoadBalancer

/-- Statement `WebServer* server = servers[currentServer];`: the vector is read at the
current cursor. -/
def select_server (lb : LoadBalancer) : Except Fault Selection :=
  match lb.server_at lb.currentServer with
  | .error e => .error e
  | .ok s => .ok { index := lb.currentServer, server := s }

/-- Source `LoadBalancer::distribute_requests`, statement by statement, returning the new
state together with the server the tick worked on (`none` for the return on an empty
queue): return at once on an empty queue; `adjust_servers()`; `servers[currentServer]`;
take the front request by reference and decrement it; when it `is_completed()`,
`process_next_request()`; finally `currentServer = (currentServer + 1) % servers.size()`.
The index test has already established `0 <= currentServer` when the modulo is reached,
so the conversion of `currentServer + 1` to the unsigned type of `size()` is the
identity. -/
def distribute_requests_with_server (lb : LoadBalancer) :
    Except Fault (LoadBalancer × Option Selection) :=
  if lb.requestQueue.is_empty then .ok (lb, none)
  else
    let lb1 := lb.adjust_servers
    match lb1.select_server with
    | .error e => .error e
    | .ok server =>
      match lb1.requestQueue.get_front_request with
      | .error e => .error e
      | .ok request =>
        let request1 := request.decrement_task_time
        let q1 := lb1.requestQueue.set_front_request request1
        let q2 := if request1.is_completed then q1.process_next_request else q1
        if lb1.servers.length = 0 then .error Fault.divideByZero
        else
          .ok ({ lb1 with
                 requestQueue := q2
                 currentServer := (lb1.currentServer + 1) % (lb1.servers.length : Int) },
               some server)

/-- Source `LoadBalancer::distribute_requests` as a state transformer: the state
`distribute_requests_with_server` ends in. -/
def distribute_requests (lb : LoadBalancer) : Except Fault LoadBalancer :=
  match lb.distribute_requests_with_server with
  | .error e => .error e
  | .ok (lb1, _) => .ok lb1

/-- Index of the server a tick started in state `lb` works on: the value of
`currentServer` at the statement `servers[currentServer]`, i.e. after `adjust_servers()`. -/
def selected_server (lb : LoadBalancer) : Int :=
  lb.adjust_servers.currentServer

end LoadBalancer

/-! ## Call sequences of the public interface -/

/-- One call a driver makes on the balancer: `add_request(r)` or `distribute_requests()`. -/
inductive Call where
  | add_request (r : Request)
  | distribute_requests
  deriving DecidableEq, Repr

namespace LoadBalancer

/-- Effect of one driver call. -/
def call (lb : LoadBalancer) : Call → Except Fault LoadBalancer
  | Call.add_request r => .ok (lb.add_request r)
  | Call.distribute_requests => lb.distribute_requests

/-- Effect of a sequence of driver calls, left to right, stopping at the first fault. -/
def run (lb : LoadBalancer) : List Call → Except Fault LoadBalancer
  | [] => .ok lb
  | c :: cs =>
    match lb.call c with
    | .error e => .error e
    | .ok lb1 => lb1.run cs

/-- Result of `k` consecutive `distribute_requests()` calls with no submission in between. -/
def ticks (lb : LoadBalancer) : Nat → Except Fault LoadBalancer
  | 0 => .ok lb
  | k + 1 =>
    match lb.distribute_requests with
    | .error e => .error e
    | .ok lb1 => lb1.ticks k

/-- Servers worked on by the successive non-idle ticks of a call sequence: each
`distribute_requests()` that gets past its empty-queue return contributes the index and
server of its `servers[currentServer]`; the list ends at the first fault. -/
def selections (lb : LoadBalancer) : List Call → List Selection
  | [] => []
  | Call.add_request r :: cs => (lb.add_request r).selections cs
  | Call.distribute_requests :: cs =>
    match lb.distribute_requests_with_server with
    | .error _ => []
    | .ok (lb1, none) => lb1.selections cs
    | .ok (lb1, some sel) => sel :: lb1.selections cs

end LoadBalancer

/-- A request with the given task time (strings as the default constructor leaves them). -/
def req (t : Int) : Request :=
  Request.new.set_task_time t

/-! ## Predicates used in the statements -/

namespace LoadBalancer

/-- The queue a tick leaves behind when it finds `front :: rest`: the front request is
dropped when its decremented task time is `<= 0`, otherwise it stays with one unit less. -/
def queue_after (front : Request) (rest : List Request) : List Request :=
  if front.taskTime ≤ 1 then rest else { front with taskTime := front.taskTime - 1 } :: rest

/-- Well-formed cursor: `currentServer` indexes an existing server. -/
def cursor_ok (lb : LoadBalancer) : Prop :=
  0 ≤ lb.currentServer ∧ lb.currentServer < (lb.servers.length : Int)

instance (lb : LoadBalancer) : Decidable lb.cursor_ok := by
  unfold cursor_ok; infer_instance

/-- State in which every tick is safe: the cursor indexes a server, or the pool is
still empty with the cursor at 0 and a ceiling that lets the first non-idle tick add a
server. -/
def tick_safe (lb : LoadBalancer) : Prop :=
  lb.cursor_ok ∨ (lb.servers = [] ∧ lb.currentServer = 0 ∧ 1 ≤ lb.maxServers)

/-- Effect of one tick on the queue `old`: an empty queue stays empty; otherwise the tick
either removes the front request, or keeps it with one unit less (only when it had more
than one unit); the requests behind the front are untouched. -/
def queue_step (old new : List Request) : Prop :=
  (old = [] ∧ new = []) ∨
  ∃ front rest, old = front :: rest ∧
    (new = rest ∨
      (1 < front.taskTime ∧ new = { front with taskTime := front.taskTime - 1 } :: rest))

/-- Queue `new` is what is left of `old` in first-in first-out service: `new` is `old`
without its first `m` requests, where the first remaining request may have had its task
time lowered to a value that is still positive. -/
def fifo_remainder (old new : List Request) : Prop :=
  ∃ m, new = old.drop m ∨
    ∃ front rest u, old.drop m = front :: rest ∧ 0 < u ∧ u < front.taskTime ∧
      new = { front with taskTime := u } :: rest

/-- Total of the task times in a queue, `r_1 + ... + r_k`. -/
def work_left : List Request → Int
  | [] => 0
  | r :: rest => r.taskTime + work_left rest

/-- Pool whose `i`-th server carries port `8080 + i`, the numbering `add_server` uses. -/
def default_ports (lb : LoadBalancer) : Prop :=
  lb.servers = (List.range lb.servers.length).map (fun (i : Nat) => WebServer.mk (8080 + (i : Int)))

end LoadBalancer

/-! ## Basic facts about the embedded functions -/

namespace LoadBalancer

theorem add_request_queue (lb : LoadBalancer) (r : Request) :
    (lb.add_request r).requestQueue.requestQueue = lb.requestQueue.requestQueue ++ [r] := rfl

theorem add_server_queue (lb : LoadBalancer) :
    lb.add_server.requestQueue = lb.requestQueue := by
  unfold add_server; split <;> rfl

theorem remove_server_queue (lb : LoadBalancer) :
    lb.remove_server.requestQueue = lb.requestQueue := by
  unfold remove_server; split <;> rfl

theorem adjust_servers_queue (lb : LoadBalancer) :
    lb.adjust_servers.requestQueue = lb.requestQueue := by
  unfold adjust_servers
  simp only
  split
  · exact add_server_queue lb
  · split
    · exact remove_server_queue lb
    · rfl

theorem adjust_servers_maxServers (lb : LoadBalancer) :
    lb.adjust_servers.maxServers = lb.maxServers := by
  unfold adjust_servers add_server remove_server
  simp only
  split
  · split <;> rfl
  · split
    · split <;> rfl
    · rfl

/-- Pool size after `adjust_servers`, as a function of the queue depth, the pool size and
the ceiling before it. -/
theorem adjust_servers_length (lb : LoadBalancer) :
    lb.adjust_servers.servers.length =
      if (lb.requestQueue.requestQueue.length : Int) > (lb.servers.length : Int) * 5 then
        (if (lb.servers.length : Int) < lb.maxServers then lb.servers.length + 1
         else lb.servers.length)
      else if (lb.requestQueue.requestQueue.length : Int) < (lb.servers.length : Int) * 2
              ∧ lb.servers.length > 1 then lb.servers.length - 1
      else lb.servers.length := by
  unfold adjust_servers add_server remove_server get_queue_size RequestQueue.get_size
  simp only
  split
  · split <;> simp
  · split
    · rename_i h
      simp [h.2]
    · rfl

/-- Cursor after `adjust_servers`: decremented exactly when the pool shrinks and the
cursor is not 0. -/
theorem adjust_servers_currentServer (lb : LoadBalancer) :
    lb.adjust_servers.currentServer =
      if ¬ ((lb.requestQueue.requestQueue.length : Int) > (lb.servers.length : Int) * 5)
          ∧ (lb.requestQueue.requestQueue.length : Int) < (lb.servers.length : Int) * 2
          ∧ lb.servers.length > 1 ∧ lb.currentServer ≠ 0 then lb.currentServer - 1
      else lb.currentServer := by
  unfold adjust_servers add_server remove_server get_queue_size RequestQueue.get_size
  simp only
  split
  · rename_i h
    simp [h]
    split <;> rfl
  · rename_i h
    split
    · rename_i h2
      simp [h, h2.1, h2.2]
    · rename_i h2
      have : ¬ ((lb.requestQueue.requestQueue.length : Int) < (lb.servers.length : Int) * 2
          ∧ lb.servers.length > 1 ∧ lb.currentServer ≠ 0) := fun hh => h2 ⟨hh.1, hh.2.1⟩
      simp only [h, not_false_eq_true, true_and, this, if_false]

/-- A valid cursor stays valid across `adjust_servers`. -/
theorem adjust_servers_cursor_ok (lb : LoadBalancer) (h : lb.cursor_ok) :
    lb.adjust_servers.cursor_ok := by
  unfold cursor_ok at *
  rw [adjust_servers_currentServer, adjust_servers_length]
  split_ifs <;> omega

/-- A tick on an empty queue returns the state as it is and works on no server. -/
theorem with_server_idle (lb : LoadBalancer) (h : lb.requestQueue.requestQueue = []) :
    lb.distribute_requests_with_server = .ok (lb, none) := by
  unfold distribute_requests_with_server RequestQueue.is_empty
  simp [h]

/-- A non-idle tick whose cursor is in range after `adjust_servers` completes; the server
it works on is the one `servers[currentServer]` yields after `adjust_servers`, and the
state is spelled out. -/
theorem with_server_busy (lb : LoadBalancer) (front : Request) (rest : List Request)
    (h : lb.requestQueue.requestQueue = front :: rest) (hc : lb.adjust_servers.cursor_ok) :
    ∃ server, lb.adjust_servers.server_at lb.adjust_servers.currentServer = .ok server
      ∧ lb.distribute_requests_with_server = .ok
          ({ lb.adjust_servers with
             requestQueue := { requestQueue := queue_after front rest }
             currentServer :=
               (lb.adjust_servers.currentServer + 1)
                 % (lb.adjust_servers.servers.length : Int) },
           some { index := lb.adjust_servers.currentServer, server := server }) := by
  obtain ⟨h0, h1⟩ := hc
  have hq : lb.adjust_servers.requestQueue.requestQueue = front :: rest := by
    rw [adjust_servers_queue]; exact h
  have hlt : lb.adjust_servers.currentServer.toNat < lb.adjust_servers.servers.length := by
    omega
  have hne : lb.adjust_servers.servers.length ≠ 0 := by omega
  have hget : lb.adjust_servers.servers.get? lb.adjust_servers.currentServer.toNat
      = some (lb.adjust_servers.servers.get ⟨_, hlt⟩) := List.get?_eq_get hlt
  have hat : lb.adjust_servers.server_at lb.adjust_servers.currentServer
      = .ok (lb.adjust_servers.servers.get ⟨_, hlt⟩) := by
    simp only [server_at, h0, hget, if_true]
  refine ⟨lb.adjust_servers.servers.get ⟨_, hlt⟩, hat, ?_⟩
  unfold distribute_requests_with_server
  simp only [RequestQueue.is_empty, h, List.isEmpty_cons, select_server, hat,
    RequestQueue.get_front_request, hq, RequestQueue.set_front_request, hne,
    Request.decrement_task_time, Request.is_completed, queue_after]
  by_cases hpos : front.taskTime > 0
  · by_cases hone : front.taskTime ≤ 1
    · have : front.taskTime - 1 ≤ 0 := by omega
      simp [hpos, hone, this, RequestQueue.process_next_request]
    · have : ¬ (front.taskTime - 1 ≤ 0) := by omega
      simp [hpos, hone, this]
  · have h1 : front.taskTime ≤ 1 := by omega
    have h2 : front.taskTime ≤ 0 := by omega
    simp [hpos, h1, h2, RequestQueue.process_next_request]

/-- A non-idle tick whose cursor is out of range after `adjust_servers` faults at
`servers[currentServer]`. -/
theorem with_server_fault (lb : LoadBalancer)
    (h : lb.requestQueue.requestQueue ≠ []) (hc : ¬ lb.adjust_servers.cursor_ok) :
    lb.distribute_requests_with_server = .error Fault.indexOutOfRange := by
  have hemp : lb.requestQueue.requestQueue.isEmpty = false := by
    cases hq : lb.requestQueue.requestQueue with
    | nil => exact absurd hq h
    | cons a l => rfl
  have hat : lb.adjust_servers.server_at lb.adjust_servers.currentServer
      = .error Fault.indexOutOfRange := by
    unfold server_at
    by_cases h0 : 0 ≤ lb.adjust_servers.currentServer
    · have hge : lb.adjust_servers.servers.length ≤ lb.adjust_servers.currentServer.toNat := by
        unfold cursor_ok at hc
        omega
      have hnone : lb.adjust_servers.servers[lb.adjust_servers.currentServer.toNat]? = none :=
        List.getElem?_eq_none hge
      simp [h0, hnone]
    · simp [h0]
  unfold distribute_requests_with_server
  simp only [RequestQueue.is_empty, hemp, select_server, hat]
  rfl

theorem distribute_requests_idle (lb : LoadBalancer)
    (h : lb.requestQueue.requestQueue = []) : lb.distribute_requests = .ok lb := by
  unfold distribute_requests
  rw [with_server_idle lb h]

/-- A non-idle tick whose cursor is in range after `adjust_servers` completes, with the
state spelled out. -/
theorem distribute_requests_busy (lb : LoadBalancer) (front : Request) (rest : List Request)
    (h : lb.requestQueue.requestQueue = front :: rest) (hc : lb.adjust_servers.cursor_ok) :
    lb.distribute_requests = .ok
      { lb.adjust_servers with
        requestQueue := { requestQueue := queue_after front rest }
        currentServer :=
          (lb.adjust_servers.currentServer + 1) % (lb.adjust_servers.servers.length : Int) } := by
  obtain ⟨server, _, e⟩ := with_server_busy lb front rest h hc
  unfold distribute_requests
  rw [e]

/-- A non-idle tick whose cursor is out of range after `adjust_servers` faults at
`servers[currentServer]`. -/
theorem distribute_requests_fault (lb : LoadBalancer)
    (h : lb.requestQueue.requestQueue ≠ []) (hc : ¬ lb.adjust_servers.cursor_ok) :
    lb.distribute_requests = .error Fault.indexOutOfRange := by
  unfold distribute_requests
  rw [with_server_fault lb h hc]

/-- Every completed tick is either the idle return or the non-idle path with the cursor
in range after `adjust_servers`. -/
theorem distribute_requests_ok_inv (lb lb1 : LoadBalancer)
    (h : lb.distribute_requests = .ok lb1) :
    (lb.requestQueue.requestQueue = [] ∧ lb1 = lb) ∨
    (∃ front rest, lb.requestQueue.requestQueue = front :: rest ∧ lb.adjust_servers.cursor_ok ∧
      lb1 = { lb.adjust_servers with
              requestQueue := { requestQueue := queue_after front rest }
              currentServer :=
                (lb.adjust_servers.currentServer + 1)
                  % (lb.adjust_servers.servers.length : Int) }) := by
  cases hq : lb.requestQueue.requestQueue with
  | nil =>
    left
    rw [distribute_requests_idle lb hq] at h
    exact ⟨rfl, (Except.ok.inj h).symm⟩
  | cons front rest =>
    right
    by_cases hc : lb.adjust_servers.cursor_ok
    · rw [distribute_requests_busy lb front rest hq hc] at h
      exact ⟨front, rest, rfl, hc, (Except.ok.inj h).symm⟩
    · rw [distribute_requests_fault lb (by rw [hq]; exact List.cons_ne_nil _ _) hc] at h
      cases h

/-- A tick started with a valid cursor completes. -/
theorem distribute_requests_total (lb : LoadBalancer) (hc : lb.cursor_ok) :
    ∃ lb1, lb.distribute_requests = .ok lb1 := by
  cases hq : lb.requestQueue.requestQueue with
  | nil => exact ⟨lb, distribute_requests_idle lb hq⟩
  | cons front rest =>
    exact ⟨_, distribute_requests_busy lb front rest hq (adjust_servers_cursor_ok lb hc)⟩

/-- A completed non-idle tick leaves the pool as `adjust_servers` made it. -/
theorem distribute_requests_servers (lb lb1 : LoadBalancer)
    (h : lb.distribute_requests = .ok lb1) (hq : lb.requestQueue.requestQueue ≠ []) :
    lb1.servers = lb.adjust_servers.servers := by
  rcases distribute_requests_ok_inv lb lb1 h with ⟨h0, _⟩ | ⟨front, rest, _, _, h1⟩
  · exact absurd h0 hq
  · rw [h1]

/-- A non-idle tick whose cursor is in range after `adjust_servers` completes, keeps the
pool and the ceiling `adjust_servers` left, and ends with a cursor in range. -/
theorem distribute_requests_busy_cursor_ok (lb : LoadBalancer)
    (hq : lb.requestQueue.requestQueue ≠ []) (hc : lb.adjust_servers.cursor_ok) :
    ∃ lb1, lb.distribute_requests = .ok lb1 ∧ lb1.cursor_ok
      ∧ lb1.servers = lb.adjust_servers.servers ∧ lb1.maxServers = lb.maxServers := by
  cases hl : lb.requestQueue.requestQueue with
  | nil => exact absurd hl hq
  | cons front rest =>
    refine ⟨_, distribute_requests_busy lb front rest hl hc, ?_, rfl, ?_⟩
    · obtain ⟨h0, h1⟩ := hc
      have hpos : (0 : Int) < (lb.adjust_servers.servers.length : Int) := by omega
      exact ⟨Int.emod_nonneg _ (by omega), Int.emod_lt_of_pos _ hpos⟩
    · exact adjust_servers_maxServers lb

/-- A tick started with a valid cursor completes and ends with a valid cursor; the
ceiling is unchanged. -/
theorem distribute_requests_cursor_ok (lb : LoadBalancer) (hc : lb.cursor_ok) :
    ∃ lb1, lb.distribute_requests = .ok lb1 ∧ lb1.cursor_ok
      ∧ lb1.maxServers = lb.maxServers := by
  by_cases hq : lb.requestQueue.requestQueue = []
  · exact ⟨lb, distribute_requests_idle lb hq, hc, rfl⟩
  · obtain ⟨lb1, h1, h2, _, h4⟩ :=
      distribute_requests_busy_cursor_ok lb hq (adjust_servers_cursor_ok lb hc)
    exact ⟨lb1, h1, h2, h4⟩

/-- The pool never grows past a ceiling it starts below, and the ceiling is fixed. -/
theorem adjust_servers_le_max (lb : LoadBalancer)
    (h : (lb.servers.length : Int) ≤ lb.maxServers) :
    (lb.adjust_servers.servers.length : Int) ≤ lb.adjust_servers.maxServers := by
  rw [adjust_servers_maxServers, adjust_servers_length]
  split_ifs <;> omega

/-- Induction over a call sequence for a property every call preserves and under which
every tick completes. -/
theorem run_invariant (P : LoadBalancer → Prop)
    (hadd : ∀ lb r, P lb → P (lb.add_request r))
    (htick : ∀ lb, P lb → ∃ lb1, lb.distribute_requests = .ok lb1 ∧ P lb1) :
    ∀ (calls : List Call) (lb : LoadBalancer), P lb → ∃ lb1, lb.run calls = .ok lb1 ∧ P lb1 := by
  intro calls
  induction calls with
  | nil => intro lb h; exact ⟨lb, rfl, h⟩
  | cons c cs ih =>
    intro lb h
    cases c with
    | add_request r =>
      obtain ⟨lb2, h2, h3⟩ := ih (lb.add_request r) (hadd lb r h)
      exact ⟨lb2, by simpa [run, call] using h2, h3⟩
    | distribute_requests =>
      obtain ⟨lb1, h1, hp⟩ := htick lb h
      obtain ⟨lb2, h2, h3⟩ := ih lb1 hp
      exact ⟨lb2, by simpa [run, call, h1] using h2, h3⟩

theorem new_servers_length (initialServers portBase maxServers : Int) :
    (new initialServers portBase maxServers).servers.length = initialServers.toNat := by
  simp only [new, List.length_map, List.length_range]

/-- Induction over a call sequence for a property preserved by every tick that completes
and by every submission of a request satisfying `Q`. -/
theorem run_preserves (P : LoadBalancer → Prop) (Q : Request → Prop)
    (hadd : ∀ lb r, Q r → P lb → P (lb.add_request r))
    (htick : ∀ lb lb1, P lb → lb.distribute_requests = .ok lb1 → P lb1) :
    ∀ (calls : List Call) (lb lb1 : LoadBalancer),
      (∀ r, Call.add_request r ∈ calls → Q r) → P lb → lb.run calls = .ok lb1 → P lb1 := by
  intro calls
  induction calls with
  | nil =>
    intro lb lb1 _ h hr
    have : lb = lb1 := by simpa [run] using hr
    exact this ▸ h
  | cons c cs ih =>
    intro lb lb1 hQ h hr
    have hQ2 : ∀ r, Call.add_request r ∈ cs → Q r :=
      fun r hr => hQ r (List.mem_cons_of_mem _ hr)
    cases c with
    | add_request r =>
      exact ih (lb.add_request r) lb1 hQ2
        (hadd lb r (hQ r (List.mem_cons_self _ _)) h) (by simpa [run, call] using hr)
    | distribute_requests =>
      cases ht : lb.distribute_requests with
      | error e => simp [run, call, ht] at hr
      | ok lb2 =>
        exact ih lb2 lb1 hQ2 (htick lb lb2 h ht) (by simpa [run, call, ht] using hr)

/-- A balancer constructed with an initial server, or with a ceiling of at least one, is
tick-safe. -/
theorem new_tick_safe (initialServers portBase maxServers : Int)
    (h : 1 ≤ initialServers ∨ 1 ≤ maxServers) :
    (new initialServers portBase maxServers).tick_safe := by
  by_cases hk : 1 ≤ initialServers
  · left
    refine ⟨le_refl _, ?_⟩
    rw [new_servers_length]
    show (0 : Int) < _
    omega
  · right
    refine ⟨?_, rfl, ?_⟩
    · apply List.eq_nil_of_length_eq_zero
      rw [new_servers_length]
      omega
    · show 1 ≤ maxServers
      omega

/-- In a tick-safe state with a non-empty queue the cursor is in range once
`adjust_servers` has run. -/
theorem tick_safe_adjust (lb : LoadBalancer) (h : lb.tick_safe)
    (hq : lb.requestQueue.requestQueue ≠ []) : lb.adjust_servers.cursor_ok := by
  rcases h with hc | ⟨hs, h0, hm⟩
  · exact adjust_servers_cursor_ok lb hc
  · have hlen : 0 < lb.requestQueue.requestQueue.length := List.length_pos.mpr hq
    unfold cursor_ok
    rw [adjust_servers_currentServer, adjust_servers_length]
    simp only [hs, List.length_nil, h0]
    split_ifs <;> omega

/-- Every tick started in a tick-safe state completes in a tick-safe state. -/
theorem tick_safe_step (lb : LoadBalancer) (h : lb.tick_safe) :
    ∃ lb1, lb.distribute_requests = .ok lb1 ∧ lb1.tick_safe := by
  by_cases hq : lb.requestQueue.requestQueue = []
  · exact ⟨lb, distribute_requests_idle lb hq, h⟩
  · obtain ⟨lb1, e1, c1, _, _⟩ :=
      distribute_requests_busy_cursor_ok lb hq (tick_safe_adjust lb h hq)
    exact ⟨lb1, e1, Or.inl c1⟩

/-- Queue effect of a completed tick. -/
theorem distribute_requests_queue_step (lb lb1 : LoadBalancer)
    (h : lb.distribute_requests = .ok lb1) :
    queue_step lb.requestQueue.requestQueue lb1.requestQueue.requestQueue := by
  rcases distribute_requests_ok_inv lb lb1 h with ⟨h0, h1⟩ | ⟨front, rest, hq, _, h1⟩
  · left
    rw [h1]
    exact ⟨h0, h0⟩
  · right
    refine ⟨front, rest, hq, ?_⟩
    rw [h1]
    show queue_after front rest = rest ∨ _
    unfold queue_after
    by_cases hone : front.taskTime ≤ 1
    · left; simp [hone]
    · right
      exact ⟨by omega, by simp [hone]⟩

/-- One more tick keeps a queue a first-in first-out remainder of the original one. -/
theorem fifo_remainder_step (old a b : List Request)
    (h1 : fifo_remainder old a) (h2 : queue_step a b) : fifo_remainder old b := by
  obtain ⟨m, hm⟩ := h1
  rcases h2 with ⟨ha, hb⟩ | ⟨front, rest, ha, hb⟩
  · rcases hm with hm | ⟨f, r, u, _, _, _, hm⟩
    · exact ⟨m, Or.inl (by rw [hb, ← ha, hm])⟩
    · rw [hm] at ha
      cases ha
  · rcases hm with hm | ⟨f, r, u, hd, hu0, hu1, hm⟩
    · have hd : old.drop m = front :: rest := by rw [← hm, ha]
      rcases hb with hb | ⟨hb1, hb2⟩
      · refine ⟨m + 1, Or.inl ?_⟩
        rw [hb, ← List.drop_drop, hd]
        rfl
      · exact ⟨m, Or.inr ⟨front, rest, front.taskTime - 1, hd, by omega, by omega, hb2⟩⟩
    · rw [hm] at ha
      have hf : front = { f with taskTime := u } := (List.cons.inj ha).1.symm
      have hr : rest = r := (List.cons.inj ha).2.symm
      rcases hb with hb | ⟨hb1, hb2⟩
      · refine ⟨m + 1, Or.inl ?_⟩
        rw [hb, ← List.drop_drop, hd, hr]
        rfl
      · refine ⟨m, Or.inr ⟨f, r, u - 1, hd, ?_, by omega, ?_⟩⟩
        · rw [hf] at hb1
          simp only at hb1
          omega
        · rw [hb2, hf, hr]

theorem run_append (cs1 cs2 : List Call) (lb : LoadBalancer) :
    lb.run (cs1 ++ cs2) =
      match lb.run cs1 with
      | .error e => .error e
      | .ok lb1 => lb1.run cs2 := by
  induction cs1 generalizing lb with
  | nil => rfl
  | cons c cs ih =>
    simp only [List.cons_append, run]
    cases lb.call c with
    | error e => rfl
    | ok lb1 => exact ih lb1

theorem run_ticks (k : Nat) (lb : LoadBalancer) :
    lb.run (List.replicate k Call.distribute_requests) = lb.ticks k := by
  induction k generalizing lb with
  | zero => rfl
  | succ k ih =>
    simp only [List.replicate_succ, run, call, ticks]
    cases lb.distribute_requests with
    | error e => rfl
    | ok lb1 => exact ih lb1

/-- Submissions never fault: they append to the queue and leave everything else alone. -/
theorem run_submissions (xs : List Request) (lb : LoadBalancer) :
    lb.run (xs.map Call.add_request) =
      .ok { lb with requestQueue := { requestQueue := lb.requestQueue.requestQueue ++ xs } } := by
  induction xs generalizing lb with
  | nil => simp [run]
  | cons x xs ih =>
    simp only [List.map_cons, run, call]
    rw [ih]
    simp [add_request, RequestQueue.add_request]

/-- Ticks keep the queue a first-in first-out remainder. -/
theorem ticks_fifo_remainder (old : List Request) (k : Nat) (lb lb1 : LoadBalancer)
    (h : fifo_remainder old lb.requestQueue.requestQueue) (hr : lb.ticks k = .ok lb1) :
    fifo_remainder old lb1.requestQueue.requestQueue := by
  induction k generalizing lb with
  | zero =>
    have : lb = lb1 := by simpa [ticks] using hr
    exact this ▸ h
  | succ k ih =>
    cases ht : lb.distribute_requests with
    | error e => simp [ticks, ht] at hr
    | ok lb2 =>
      exact ih lb2 (fifo_remainder_step old _ _ h (distribute_requests_queue_step lb lb2 ht))
        (by simpa [ticks, ht] using hr)

/-- Ticks started in a tick-safe state all complete. -/
theorem ticks_total (k : Nat) (lb : LoadBalancer) (h : lb.tick_safe) :
    ∃ lb1, lb.ticks k = .ok lb1 ∧ lb1.tick_safe := by
  induction k generalizing lb with
  | zero => exact ⟨lb, rfl, h⟩
  | succ k ih =>
    obtain ⟨lb2, e2, s2⟩ := tick_safe_step lb h
    obtain ⟨lb1, e1, s1⟩ := ih lb2 s2
    exact ⟨lb1, by simpa [ticks, e2] using e1, s1⟩

/-- Every call sequence started in a tick-safe state completes in a tick-safe state. -/
theorem run_total (calls : List Call) (lb : LoadBalancer) (h : lb.tick_safe) :
    ∃ lb1, lb.run calls = .ok lb1 ∧ lb1.tick_safe :=
  run_invariant (fun lb => lb.tick_safe) (fun _ _ h => h) tick_safe_step calls lb h

/-- A completed tick keeps every queued task time positive. -/
theorem distribute_requests_positive (lb lb1 : LoadBalancer)
    (hp : ∀ r ∈ lb.requestQueue.requestQueue, 0 < r.taskTime)
    (h : lb.distribute_requests = .ok lb1) :
    ∀ r ∈ lb1.requestQueue.requestQueue, 0 < r.taskTime := by
  rcases distribute_requests_queue_step lb lb1 h with ⟨_, hb⟩ | ⟨front, rest, ha, hb⟩
  · intro r hr
    rw [hb] at hr
    cases hr
  · rcases hb with hb | ⟨hb1, hb2⟩
    · intro r hr
      rw [hb] at hr
      exact hp r (by rw [ha]; exact List.mem_cons_of_mem _ hr)
    · intro r hr
      rw [hb2] at hr
      rcases List.mem_cons.mp hr with hr | hr
      · rw [hr]
        show 0 < front.taskTime - 1
        omega
      · exact hp r (by rw [ha]; exact List.mem_cons_of_mem _ hr)

/-- When `adjust_servers` leaves the pool size alone it leaves the cursor alone. -/
theorem adjust_servers_steady (lb : LoadBalancer)
    (h : lb.adjust_servers.servers.length = lb.servers.length) :
    lb.adjust_servers.currentServer = lb.currentServer := by
  rw [adjust_servers_length] at h
  rw [adjust_servers_currentServer]
  split_ifs at h ⊢ <;> omega

/-- Stepping the start of a round-robin progression by one. -/
theorem round_robin_shift (c : Int) (n k : Nat) :
    (List.range (k + 1)).map (fun j : Nat => (c + (j : Int)) % (n : Int))
      = (c % (n : Int)) ::
          (List.range k).map (fun j : Nat => ((c + 1) % (n : Int) + (j : Int)) % (n : Int)) := by
  rw [List.range_succ_eq_map, List.map_cons, List.map_map]
  congr 1
  · simp
  · apply List.map_congr_left
    intro j _
    simp only [Function.comp, Int.emod_add_emod]
    congr 1
    push_cast
    ring

/-- In `n` steps a round-robin progression over `n` indices meets each index once. -/
theorem round_robin_once (c : Int) (n w : Nat) (hw : w < n) :
    ((List.range n).map (fun j : Nat => (c + (j : Int)) % (n : Int))).count (w : Int) = 1 := by
  have hn : (0 : Int) < (n : Int) := by omega
  apply List.count_eq_one_of_mem
  · apply List.Nodup.map_on _ (List.nodup_range n)
    intro i hi j hj hij
    rw [List.mem_range] at hi hj
    have h0 : ((c + (i : Int)) - (c + (j : Int))) % (n : Int) = 0 :=
      Int.emod_eq_emod_iff_emod_sub_eq_zero.mp hij
    have hd : (n : Int) ∣ ((i : Int) - (j : Int)) := by
      have : (c + (i : Int)) - (c + (j : Int)) = (i : Int) - (j : Int) := by ring
      rw [this] at h0
      exact Int.dvd_of_emod_eq_zero h0
    have hz : (i : Int) - (j : Int) = 0 := by
      apply Int.eq_zero_of_abs_lt_dvd hd
      rw [abs_lt]
      constructor <;> omega
    omega
  · rw [List.mem_map]
    have hlt : ((w : Int) - c) % (n : Int) < (n : Int) := Int.emod_lt_of_pos _ hn
    have hge : 0 ≤ ((w : Int) - c) % (n : Int) := Int.emod_nonneg _ (by omega)
    refine ⟨(((w : Int) - c) % (n : Int)).toNat, ?_, ?_⟩
    · rw [List.mem_range]
      omega
    · show (c + ((((w : Int) - c) % (n : Int)).toNat : Int)) % (n : Int) = (w : Int)
      rw [Int.toNat_of_nonneg hge, Int.add_emod_emod]
      have : c + ((w : Int) - c) = (w : Int) := by ring
      rw [this]
      exact Int.emod_eq_of_lt (by omega) (by omega)

/-- When `adjust_servers` leaves the pool size alone it leaves the pool alone. -/
theorem adjust_servers_steady_servers (lb : LoadBalancer)
    (h : lb.adjust_servers.servers.length = lb.servers.length) :
    lb.adjust_servers.servers = lb.servers := by
  unfold adjust_servers at h ⊢
  simp only at h ⊢
  split_ifs at h ⊢ with h1 h2
  · unfold add_server at h ⊢
    split_ifs at h ⊢ with h3
    · simp only [List.length_append, List.length_singleton] at h
      omega
    · rfl
  · have hgt : lb.servers.length > 1 := h2.2
    unfold remove_server at h
    simp only [hgt, if_true, List.length_dropLast] at h
    omega
  · rfl

/-- The lookup `servers[i]` depends on the pool only. -/
theorem server_at_congr (lb lb1 : LoadBalancer) (h : lb1.servers = lb.servers) (i : Int) :
    lb1.server_at i = lb.server_at i := by
  unfold server_at
  rw [h]

/-- Round-robin over a call sequence whose ticks are all non-idle and leave the pool at
`n` servers: the run completes, the ticks read the vector at the indices `c, c + 1, ...`
modulo `n` in turn, each works on the server the pool holds at that index, and the cursor
ends at `c` plus the number of ticks, modulo `n`. -/
theorem selections_round_robin (n : Nat) :
    ∀ (calls : List Call) (lb : LoadBalancer), lb.servers.length = n → lb.cursor_ok →
      (∀ i s, calls[i]? = some Call.distribute_requests → lb.run (calls.take i) = .ok s →
        s.requestQueue.requestQueue ≠ [] ∧ s.adjust_servers.servers.length = n) →
      ∃ s, lb.run calls = .ok s
        ∧ (lb.selections calls).map Selection.index
            = (List.range (calls.count Call.distribute_requests)).map
                (fun j : Nat => (lb.currentServer + (j : Int)) % (n : Int))
        ∧ (∀ sel ∈ lb.selections calls, lb.server_at sel.index = .ok sel.server)
        ∧ s.currentServer
            = (lb.currentServer + ((calls.count Call.distribute_requests : Nat) : Int))
                % (n : Int) := by
  intro calls
  induction calls with
  | nil =>
    intro lb hs hc _
    refine ⟨lb, rfl, rfl, ?_, ?_⟩
    · intro sel hsel
      cases hsel
    · have h2 := hc.2
      rw [hs] at h2
      simp only [List.count_nil, Nat.cast_zero, add_zero]
      exact (Int.emod_eq_of_lt hc.1 h2).symm
  | cons c cs ih =>
    intro lb hs hc hst
    cases c with
    | add_request r =>
      obtain ⟨s, h1, h2, h3, h4⟩ := ih (lb.add_request r) hs hc
        (fun i s hi hr => hst (i + 1) s (by simpa using hi) (by simpa [run, call] using hr))
      have hcount : (Call.add_request r :: cs).count Call.distribute_requests
          = cs.count Call.distribute_requests := by
        simp [List.count_cons]
      refine ⟨s, by simpa [run, call] using h1, ?_, ?_, ?_⟩
      · rw [hcount]
        exact h2
      · exact h3
      · rw [hcount]
        exact h4
    | distribute_requests =>
      obtain ⟨hq, hadj⟩ := hst 0 lb (by simp) rfl
      have hcur : lb.adjust_servers.currentServer = lb.currentServer :=
        adjust_servers_steady lb (hadj.trans hs.symm)
      have hsrv : lb.adjust_servers.servers = lb.servers :=
        adjust_servers_steady_servers lb (hadj.trans hs.symm)
      have hcok : lb.adjust_servers.cursor_ok := adjust_servers_cursor_ok lb hc
      have hlt : lb.currentServer < (n : Int) := by
        have := hc.2
        rw [hs] at this
        exact this
      have hpos : (0 : Int) < (n : Int) := lt_of_le_of_lt hc.1 hlt
      cases hl : lb.requestQueue.requestQueue with
      | nil => exact absurd hl hq
      | cons front rest =>
        obtain ⟨server, hat, e⟩ := with_server_busy lb front rest hl hcok
        have ht := distribute_requests_busy lb front rest hl hcok
        generalize hlb1 : ({ lb.adjust_servers with
            requestQueue := { requestQueue := queue_after front rest }
            currentServer := (lb.adjust_servers.currentServer + 1)
              % (lb.adjust_servers.servers.length : Int) } : LoadBalancer) = lb1 at ht e
        have hsv1 : lb1.servers = lb.servers := by
          rw [← hlb1]
          exact hsrv
        have hs1 : lb1.servers.length = n := by
          rw [hsv1]
          exact hs
        have hc1 : lb1.currentServer = (lb.currentServer + 1) % (n : Int) := by
          rw [← hlb1]
          show (lb.adjust_servers.currentServer + 1) % (lb.adjust_servers.servers.length : Int) = _
          rw [hcur, hadj]
        obtain ⟨s, h1, h2, h3, h4⟩ := ih lb1 hs1
          ⟨by rw [hc1]; exact Int.emod_nonneg _ (by omega),
           by rw [hc1, hs1]; exact Int.emod_lt_of_pos _ hpos⟩
          (fun i s hi hr => hst (i + 1) s (by simpa using hi)
            (by simpa [run, call, ht] using hr))
        have hcount : (Call.distribute_requests :: cs).count Call.distribute_requests
            = cs.count Call.distribute_requests + 1 := by
          simp [List.count_cons]
        have hsels : lb.selections (Call.distribute_requests :: cs)
            = { index := lb.adjust_servers.currentServer, server := server }
                :: lb1.selections cs := by
          simp only [selections, e]
        refine ⟨s, by simpa [run, call, ht] using h1, ?_, ?_, ?_⟩
        · rw [hcount, round_robin_shift, Int.emod_eq_of_lt hc.1 hlt, hsels, List.map_cons,
            h2, hc1, hcur]
        · intro sel hsel
          rw [hsels] at hsel
          rcases List.mem_cons.mp hsel with hsel | hsel
          · rw [hsel]
            show lb.server_at lb.adjust_servers.currentServer = .ok server
            rw [← server_at_congr lb lb.adjust_servers hsrv]
            exact hat
          · rw [← server_at_congr lb lb1 hsv1]
            exact h3 sel hsel
        · rw [hcount, h4, hc1, Int.emod_add_emod]
          congr 1
          push_cast
          ring

theorem queue_after_length (front : Request) (rest : List Request) :
    rest.length ≤ (queue_after front rest).length
      ∧ (queue_after front rest).length ≤ rest.length + 1 := by
  unfold queue_after
  split <;> simp

/-- Ticks inside the band: with at most `5 n` queued requests and either `n <= 1` or at
least `2 n + k - 1` queued requests, `k` ticks leave the pool size alone. -/
theorem ticks_hysteresis (k : Nat) :
    ∀ (lb lb1 : LoadBalancer),
      lb.requestQueue.requestQueue.length ≤ 5 * lb.servers.length →
      (lb.servers.length ≤ 1
        ∨ k + 2 * lb.servers.length ≤ lb.requestQueue.requestQueue.length + 1) →
      lb.ticks k = .ok lb1 → lb1.servers.length = lb.servers.length := by
  induction k with
  | zero =>
    intro lb lb1 _ _ hr
    have : lb = lb1 := by simpa [ticks] using hr
    rw [this]
  | succ k ih =>
    intro lb lb1 hhi hk hr
    cases ht : lb.distribute_requests with
    | error e => simp [ticks, ht] at hr
    | ok lb2 =>
      have hr2 : lb2.ticks k = .ok lb1 := by simpa [ticks, ht] using hr
      rcases distribute_requests_ok_inv lb lb2 ht with ⟨_, h1⟩ | ⟨front, rest, hq, _, h1⟩
      · rw [h1] at hr2
        exact ih lb lb1 hhi (by omega) hr2
      · have hlen : lb2.servers.length = lb.servers.length := by
          rw [h1]
          show lb.adjust_servers.servers.length = _
          rw [adjust_servers_length]
          have hql : lb.requestQueue.requestQueue.length = rest.length + 1 := by
            rw [hq]; rfl
          split_ifs <;> omega
        have hq2 : lb2.requestQueue.requestQueue = queue_after front rest := by
          rw [h1]
        have hb := queue_after_length front rest
        have hql : lb.requestQueue.requestQueue.length = rest.length + 1 := by
          rw [hq]; rfl
        rw [← hlen]
        apply ih lb2 lb1
        · rw [hq2, hlen]
          omega
        · rw [hq2, hlen]
          omega
        · exact hr2

/-- A queue of positive task times has a non-negative total, positive unless it is
empty. -/
theorem work_left_pos (q : List Request) (hp : ∀ r ∈ q, 0 < r.taskTime) :
    0 ≤ work_left q ∧ (q ≠ [] → 0 < work_left q) := by
  induction q with
  | nil => exact ⟨le_refl _, fun h => absurd rfl h⟩
  | cons r rest ih =>
    have h1 := hp r (List.mem_cons_self _ _)
    have h2 := (ih (fun x hx => hp x (List.mem_cons_of_mem _ hx))).1
    refine ⟨?_, fun _ => ?_⟩ <;> simp only [work_left] <;> omega

/-- A non-idle tick on a front request with a positive task time takes one unit off the
total. -/
theorem work_left_queue_after (front : Request) (rest : List Request)
    (h : 0 < front.taskTime) :
    work_left (queue_after front rest) = work_left (front :: rest) - 1 := by
  unfold queue_after
  split
  · simp only [work_left]
    omega
  · simp only [work_left]
    omega

/-- Ticks on a queue of positive task times: each one that completes takes one unit off
the total until it is 0, and the task times stay positive. -/
theorem ticks_work_left (k : Nat) :
    ∀ (lb lb1 : LoadBalancer),
      (∀ r ∈ lb.requestQueue.requestQueue, 0 < r.taskTime) →
      lb.ticks k = .ok lb1 →
      (∀ r ∈ lb1.requestQueue.requestQueue, 0 < r.taskTime)
        ∧ work_left lb1.requestQueue.requestQueue
            = max (work_left lb.requestQueue.requestQueue - (k : Int)) 0 := by
  induction k with
  | zero =>
    intro lb lb1 hp hr
    have : lb = lb1 := by simpa [ticks] using hr
    rw [← this]
    have := (work_left_pos _ hp).1
    refine ⟨hp, ?_⟩
    simp only [Nat.cast_zero, sub_zero]
    omega
  | succ k ih =>
    intro lb lb1 hp hr
    cases ht : lb.distribute_requests with
    | error e => simp [ticks, ht] at hr
    | ok lb2 =>
      have hr2 : lb2.ticks k = .ok lb1 := by simpa [ticks, ht] using hr
      have hp2 := distribute_requests_positive lb lb2 hp ht
      obtain ⟨h1, h2⟩ := ih lb2 lb1 hp2 hr2
      refine ⟨h1, ?_⟩
      rw [h2]
      rcases distribute_requests_ok_inv lb lb2 ht with ⟨h0, e⟩ | ⟨front, rest, hq, _, e⟩
      · rw [e, h0]
        simp only [work_left]
        push_cast
        omega
      · have hq2 : lb2.requestQueue.requestQueue = queue_after front rest := by rw [e]
        have hf : 0 < front.taskTime := hp front (by rw [hq]; exact List.mem_cons_self _ _)
        rw [hq2, work_left_queue_after front rest hf, hq]
        push_cast
        omega

/-- Below the ceiling `add_server` appends one server, on port `8080 + size`. -/
theorem add_server_servers (lb : LoadBalancer)
    (h : (lb.servers.length : Int) < lb.maxServers) :
    lb.add_server.servers = lb.servers ++ [WebServer.mk (8080 + (lb.servers.length : Int))] := by
  unfold add_server
  simp [h]

/-- With more than one server `remove_server` drops the last one. -/
theorem remove_server_servers (lb : LoadBalancer) (h : lb.servers.length > 1) :
    lb.remove_server.servers = lb.servers.dropLast := by
  unfold remove_server
  simp [h]

/-- Pool size, queue depth and ceiling after a completed non-idle tick, in terms of the
state before it. -/
theorem distribute_requests_sizes (lb lb1 : LoadBalancer)
    (h : lb.distribute_requests = .ok lb1) (hq : lb.requestQueue.requestQueue ≠ []) :
    lb1.servers.length = lb.adjust_servers.servers.length
      ∧ lb1.maxServers = lb.maxServers
      ∧ lb1.requestQueue.requestQueue.length ≤ lb.requestQueue.requestQueue.length
      ∧ lb.requestQueue.requestQueue.length ≤ lb1.requestQueue.requestQueue.length + 1 := by
  rcases distribute_requests_ok_inv lb lb1 h with ⟨h0, _⟩ | ⟨front, rest, hl, _, e⟩
  · exact absurd h0 hq
  · have hb := queue_after_length front rest
    have hq1 : lb1.requestQueue.requestQueue = queue_after front rest := by rw [e]
    have hs1 : lb1.servers = lb.adjust_servers.servers := by rw [e]
    have hm1 : lb1.maxServers = lb.adjust_servers.maxServers := by rw [e]
    refine ⟨by rw [hs1], by rw [hm1, adjust_servers_maxServers], ?_, ?_⟩
    · rw [hq1, hl]
      simp only [List.length_cons]
      omega
    · rw [hq1, hl]
      simp only [List.length_cons]
      omega

/-- `adjust_servers` keeps the numbering `8080 + i`. -/
theorem adjust_servers_default_ports (lb : LoadBalancer) (h : lb.default_ports) :
    lb.adjust_servers.default_ports := by
  unfold adjust_servers
  simp only
  split
  · by_cases hlt : (lb.servers.length : Int) < lb.maxServers
    · unfold default_ports
      rw [add_server_servers lb hlt, List.length_append, List.length_singleton,
        List.range_succ, List.map_append, ← h]
      rfl
    · have : lb.add_server = lb := by
        unfold add_server
        rw [if_neg hlt]
      rw [this]
      exact h
  · split
    · rename_i hsh
      have hgt : lb.servers.length > 1 := hsh.2
      obtain ⟨m, hm⟩ : ∃ m, lb.servers.length = m + 1 := ⟨lb.servers.length - 1, by omega⟩
      have hd : lb.servers.dropLast
          = (List.range m).map (fun (i : Nat) => WebServer.mk (8080 + (i : Int))) := by
        have h2 := h
        unfold default_ports at h2
        rw [hm, List.range_succ, List.map_append] at h2
        rw [h2, List.map_singleton, List.dropLast_concat]
      unfold default_ports
      rw [remove_server_servers lb hgt, List.length_dropLast, hm, hd]
      rfl
    · exact h

/-- A balancer constructed with port base 8080 keeps pairwise distinct ports, `8080 + i` at
position `i`, in every state a call sequence reaches: the duplicate ports of other bases
come from `add_server` numbering from 8080 only. -/
theorem run_default_ports (initialServers maxServers : Int) (calls : List Call)
    (lb : LoadBalancer) (hr : (new initialServers 8080 maxServers).run calls = .ok lb) :
    lb.default_ports ∧ (lb.servers.map WebServer.get_port).Nodup := by
  have hd : lb.default_ports :=
    run_preserves (fun lb => lb.default_ports) (fun _ => True)
      (fun lb r _ h => h)
      (fun lb lb1 h ht => by
        by_cases hq : lb.requestQueue.requestQueue = []
        · rw [distribute_requests_idle lb hq] at ht
          rw [← Except.ok.inj ht]
          exact h
        · have hs := distribute_requests_servers lb lb1 ht hq
          have ha := adjust_servers_default_ports lb h
          unfold default_ports at ha
          show lb1.servers = _
          rw [hs]
          exact ha)
      calls _ lb (fun _ _ => trivial)
      (by
        show (new initialServers 8080 maxServers).servers
          = (List.range (new initialServers 8080 maxServers).servers.length).map _
        rw [new_servers_length]
        rfl)
      hr
  refine ⟨hd, ?_⟩
  unfold default_ports at hd
  rw [hd, List.map_map]
  apply List.Nodup.map_on _ (List.nodup_range _)
  intro i _ j _ hij
  simp only [Function.comp, WebServer.get_port] at hij
  omega

/-- `adjust_servers` moves `activeServers` and the pool size by the same amount. -/
theorem adjust_servers_active (lb : LoadBalancer) :
    lb.adjust_servers.activeServers - (lb.adjust_servers.servers.length : Int)
      = lb.activeServers - (lb.servers.length : Int) := by
  unfold adjust_servers add_server remove_server
  simp only
  split
  · split
    · simp only [List.length_append, List.length_singleton]
      push_cast
      ring
    · rfl
  · split
    · rename_i h
      have hgt : lb.servers.length > 1 := h.2
      simp only [hgt, if_true, List.length_dropLast]
      omega
    · rfl

/-- A completed tick moves `activeServers` and the pool size by the same amount. -/
theorem distribute_requests_active (lb lb1 : LoadBalancer)
    (h : lb.distribute_requests = .ok lb1) :
    lb1.activeServers - (lb1.servers.length : Int)
      = lb.activeServers - (lb.servers.length : Int) := by
  rcases distribute_requests_ok_inv lb lb1 h with ⟨_, e⟩ | ⟨front, rest, _, _, e⟩
  · rw [e]
  · rw [e]
    exact adjust_servers_active lb

/-- When `adjust_servers` grows the pool it appends one server and leaves the cursor
alone. -/
theorem adjust_servers_grow (lb : LoadBalancer)
    (h : lb.servers.length < lb.adjust_servers.servers.length) :
    lb.adjust_servers.servers
        = lb.servers ++ [WebServer.mk (8080 + (lb.servers.length : Int))]
      ∧ lb.adjust_servers.currentServer = lb.currentServer := by
  unfold adjust_servers at h ⊢
  simp only at h ⊢
  unfold get_queue_size RequestQueue.get_size at h ⊢
  split_ifs at h ⊢ with h1 h2
  · by_cases hlt : (lb.servers.length : Int) < lb.maxServers
    · refine ⟨add_server_servers lb hlt, ?_⟩
      unfold add_server
      simp [hlt]
    · exfalso
      unfold add_server at h
      simp [hlt] at h
  · exfalso
    rw [remove_server_servers lb h2.2, List.length_dropLast] at h
    omega
  · exact absurd h (lt_irrefl _)

/-- Every completed tick is either the idle return, working on no server, or the non-idle
path, working on the server `servers[currentServer]` yields after `adjust_servers`. -/
theorem with_server_ok_inv (lb lb1 : LoadBalancer) (sel : Option Selection)
    (h : lb.distribute_requests_with_server = .ok (lb1, sel)) :
    (lb.requestQueue.requestQueue = [] ∧ lb1 = lb ∧ sel = none) ∨
    (∃ front rest server, lb.requestQueue.requestQueue = front :: rest
      ∧ lb.adjust_servers.cursor_ok
      ∧ lb.adjust_servers.server_at lb.adjust_servers.currentServer = .ok server
      ∧ lb1 = { lb.adjust_servers with
                requestQueue := { requestQueue := queue_after front rest }
                currentServer :=
                  (lb.adjust_servers.currentServer + 1)
                    % (lb.adjust_servers.servers.length : Int) }
      ∧ sel = some { index := lb.adjust_servers.currentServer, server := server }) := by
  cases hq : lb.requestQueue.requestQueue with
  | nil =>
    left
    rw [with_server_idle lb hq] at h
    have e := Except.ok.inj h
    exact ⟨rfl, (Prod.mk.inj e).1.symm, (Prod.mk.inj e).2.symm⟩
  | cons front rest =>
    right
    by_cases hc : lb.adjust_servers.cursor_ok
    · obtain ⟨server, hat, e⟩ := with_server_busy lb front rest hq hc
      rw [e] at h
      have e2 := Except.ok.inj h
      exact ⟨front, rest, server, rfl, hc, hat, (Prod.mk.inj e2).1.symm, (Prod.mk.inj e2).2.symm⟩
    · rw [with_server_fault lb (by rw [hq]; exact List.cons_ne_nil _ _) hc] at h
      cases h

/-- The state `distribute_requests` returns is the state of
`distribute_requests_with_server`. -/
theorem with_server_state (lb lb1 : LoadBalancer) (sel : Option Selection)
    (h : lb.distribute_requests_with_server = .ok (lb1, sel)) :
    lb.distribute_requests = .ok lb1 := by
  unfold distribute_requests
  rw [h]

/-- The index a non-idle tick reads the vector at is `selected_server`. -/
theorem with_server_index (lb lb1 : LoadBalancer) (sel : Selection)
    (h : lb.distribute_requests_with_server = .ok (lb1, some sel)) :
    sel.index = lb.selected_server := by
  rcases with_server_ok_inv lb lb1 (some sel) h with ⟨_, _, e⟩ | ⟨_, _, _, _, _, _, _, e⟩
  · cases e
  · rw [Option.some.inj e]
    rfl

end LoadBalancer

/-! ## Claims -/

/-- C1: for a state with a non-empty queue of depth `q` and pool size `n >= 1`, every
completed tick leaves the pool size at `n + 1` if `q > 5 n` and `n < maxServers`, at
`n - 1` if `q < 2 n` and `n > 1`, and at `n` otherwise, so the size moves by at most one;
and the tick does complete whenever the cursor indexes an existing server. -/
theorem C1_tick_pool_size (lb : LoadBalancer)
    (hq : lb.requestQueue.requestQueue ≠ []) (hn : 1 ≤ lb.servers.length) :
    (∀ lb1, lb.distribute_requests = .ok lb1 →
        lb1.servers.length =
          (if lb.requestQueue.requestQueue.length > 5 * lb.servers.length
              ∧ (lb.servers.length : Int) < lb.maxServers then lb.servers.length + 1
           else if lb.requestQueue.requestQueue.length < 2 * lb.servers.length
              ∧ lb.servers.length > 1 then lb.servers.length - 1
           else lb.servers.length)
        ∧ lb1.servers.length ≤ lb.servers.length + 1
        ∧ lb.servers.length ≤ lb1.servers.length + 1)
    ∧ (lb.cursor_ok → ∃ lb1, lb.distribute_requests = .ok lb1) := by
  refine ⟨?_, LoadBalancer.distribute_requests_total lb⟩
  intro lb1 h
  rw [LoadBalancer.distribute_requests_servers lb lb1 h hq, LoadBalancer.adjust_servers_length]
  have := hn
  split_ifs <;> omega

/-- Witness for C1 (scenario B): pool size 1, ceiling 10, twenty one-unit requests; the
first tick completes and leaves two servers. -/
theorem C1_tick_pool_size_witness :
    ∃ lb1, (LoadBalancer.mk [WebServer.mk 8080] (RequestQueue.mk (List.replicate 20 (req 1)))
              0 10 0 0).distribute_requests = .ok lb1 ∧ lb1.servers.length = 2 := by
  have h := C1_tick_pool_size
    (LoadBalancer.mk [WebServer.mk 8080] (RequestQueue.mk (List.replicate 20 (req 1))) 0 10 0 0)
    (by decide) (by decide)
  obtain ⟨lb1, h1⟩ := h.2 (by decide)
  refine ⟨lb1, h1, ?_⟩
  have h2 := (h.1 lb1 h1).1
  simpa using h2

/-- C2, as stated, fails: the driver's own construction `LoadBalancer lb(0, 8080, 3)`
followed by a submission is a reachable state with an empty pool, and
`LoadBalancer lb(5, 8080, 3)` starts with five servers above the ceiling of three. -/
theorem C2_pool_bounds_counterexample :
    (∃ lb, (LoadBalancer.new 0 8080 3).run [Call.add_request (req 3)] = .ok lb
        ∧ ¬ (1 ≤ lb.servers.length ∧ (lb.servers.length : Int) ≤ lb.maxServers))
    ∧ (∃ lb, (LoadBalancer.new 5 8080 3).run [] = .ok lb
        ∧ ¬ (1 ≤ lb.servers.length ∧ (lb.servers.length : Int) ≤ lb.maxServers)) := by
  refine ⟨⟨_, rfl, ?_⟩, ⟨_, rfl, ?_⟩⟩ <;> decide

/-- C2, amended: for a construction with `1 <= initialServers <= maxServers`, every
sequence of `add_request` and `distribute_requests` calls runs to completion and ends in
a state with `1 <= poolSize <= maxServers`, the ceiling being the constructor's argument
(the empty sequence gives the state right after construction). -/
theorem C2_pool_bounds (initialServers portBase maxServers : Int) (calls : List Call)
    (h1 : 1 ≤ initialServers) (h2 : initialServers ≤ maxServers) :
    ∃ lb, (LoadBalancer.new initialServers portBase maxServers).run calls = .ok lb
      ∧ 1 ≤ lb.servers.length ∧ (lb.servers.length : Int) ≤ maxServers
      ∧ lb.maxServers = maxServers := by
  have key := LoadBalancer.run_invariant
    (fun lb => lb.cursor_ok ∧ (lb.servers.length : Int) ≤ lb.maxServers
      ∧ lb.maxServers = maxServers)
    (fun lb r h => h)
    (fun lb h => by
      obtain ⟨hc, hle, hm⟩ := h
      by_cases hq : lb.requestQueue.requestQueue = []
      · exact ⟨lb, LoadBalancer.distribute_requests_idle lb hq, hc, hle, hm⟩
      · obtain ⟨lb1, e1, c1, s1, m1⟩ := LoadBalancer.distribute_requests_busy_cursor_ok lb hq
          (LoadBalancer.adjust_servers_cursor_ok lb hc)
        refine ⟨lb1, e1, c1, ?_, m1.trans hm⟩
        have := LoadBalancer.adjust_servers_le_max lb hle
        rw [LoadBalancer.adjust_servers_maxServers] at this
        rw [s1, m1]
        exact this)
    calls (LoadBalancer.new initialServers portBase maxServers)
    (by
      refine ⟨⟨le_refl _, ?_⟩, ?_, rfl⟩
      · rw [LoadBalancer.new_servers_length]
        show (0 : Int) < _
        omega
      · rw [LoadBalancer.new_servers_length]
        show ((initialServers.toNat : Nat) : Int) ≤ maxServers
        omega)
  obtain ⟨lb, hr, ⟨hc0, hc1⟩, hle, hm⟩ := key
  refine ⟨lb, hr, ?_, ?_, hm⟩
  · omega
  · omega

/-- Witness for C2 (amended): one initial server, ceiling 10, seven submissions and two
ticks. -/
theorem C2_pool_bounds_witness :
    ∃ lb, (LoadBalancer.new 1 8080 10).run
        ((List.replicate 7 (Call.add_request (req 2)))
          ++ [Call.distribute_requests, Call.distribute_requests]) = .ok lb
      ∧ 1 ≤ lb.servers.length ∧ (lb.servers.length : Int) ≤ 10 ∧ lb.maxServers = 10 :=
  C2_pool_bounds 1 8080 10 _ (by decide) (by decide)

/-- C3, as stated, fails: after the driver's construction `LoadBalancer lb(0, 8080, 3)` and
one submission the cursor is 0 while the pool is empty, so it indexes no server. -/
theorem C3_cursor_valid_counterexample :
    ∃ lb, (LoadBalancer.new 0 8080 3).run [Call.add_request (req 3)] = .ok lb
      ∧ ¬ (0 ≤ lb.currentServer ∧ lb.currentServer < (lb.servers.length : Int)) := by
  refine ⟨_, rfl, ?_⟩
  decide

/-- C3, amended: for a construction with `initialServers >= 1`, every sequence of
`add_request` and `distribute_requests` calls runs to completion and ends in a state with
`0 <= currentServer < poolSize`, ticks that shrink the pool included. -/
theorem C3_cursor_valid (initialServers portBase maxServers : Int) (calls : List Call)
    (h1 : 1 ≤ initialServers) :
    ∃ lb, (LoadBalancer.new initialServers portBase maxServers).run calls = .ok lb
      ∧ 0 ≤ lb.currentServer ∧ lb.currentServer < (lb.servers.length : Int) := by
  have key := LoadBalancer.run_invariant (fun lb => lb.cursor_ok)
    (fun lb r h => h)
    (fun lb h => by
      obtain ⟨lb1, e1, c1, _⟩ := LoadBalancer.distribute_requests_cursor_ok lb h
      exact ⟨lb1, e1, c1⟩)
    calls (LoadBalancer.new initialServers portBase maxServers)
    (by
      refine ⟨le_refl _, ?_⟩
      rw [LoadBalancer.new_servers_length]
      show (0 : Int) < _
      omega)
  obtain ⟨lb, hr, hc0, hc1⟩ := key
  exact ⟨lb, hr, hc0, hc1⟩

/-- Witness for C3 (amended): four initial servers, three submissions and three ticks, the
first of which shrinks the pool. -/
theorem C3_cursor_valid_witness :
    ∃ lb, (LoadBalancer.new 4 8080 10).run
        [Call.add_request (req 1), Call.add_request (req 1), Call.add_request (req 1),
         Call.distribute_requests, Call.distribute_requests, Call.distribute_requests] = .ok lb
      ∧ 0 ≤ lb.currentServer ∧ lb.currentServer < (lb.servers.length : Int) :=
  C3_cursor_valid 4 8080 10 _ (by decide)

/-- C4, as stated, fails: constructed with no initial server and ceiling 0, the balancer
cannot add a server, and the first tick after a submission evaluates `servers[0]` on an
empty vector. -/
theorem C4_tick_safe_counterexample :
    (LoadBalancer.new 0 8080 0).run [Call.add_request (req 1), Call.distribute_requests]
      = .error Fault.indexOutOfRange := by
  rfl

/-- C4, amended: for a construction with `initialServers >= 1` or `maxServers >= 1`,
every sequence of `add_request` and `distribute_requests` calls runs to completion, and
in the state it ends in a further tick completes as well; when that tick is not idle, the
index `currentServer` is in range after `adjust_servers`, the pool size used as modulo
divisor is non-zero, the front read succeeds and the queue still holds the front request
when the completion pop runs. -/
theorem C4_tick_safe (initialServers portBase maxServers : Int) (calls : List Call)
    (h : 1 ≤ initialServers ∨ 1 ≤ maxServers) :
    ∃ lb, (LoadBalancer.new initialServers portBase maxServers).run calls = .ok lb
      ∧ (∃ lb1, lb.distribute_requests = .ok lb1)
      ∧ (lb.requestQueue.requestQueue ≠ [] →
          (0 ≤ lb.adjust_servers.currentServer
            ∧ lb.adjust_servers.currentServer < (lb.adjust_servers.servers.length : Int))
          ∧ lb.adjust_servers.servers.length ≠ 0
          ∧ ∃ front, lb.adjust_servers.requestQueue.get_front_request = .ok front
              ∧ (lb.adjust_servers.requestQueue.set_front_request
                  front.decrement_task_time).requestQueue ≠ []) := by
  have key := LoadBalancer.run_invariant (fun lb => lb.tick_safe)
    (fun lb r h => h) LoadBalancer.tick_safe_step
    calls (LoadBalancer.new initialServers portBase maxServers)
    (LoadBalancer.new_tick_safe initialServers portBase maxServers h)
  obtain ⟨lb, hr, hs⟩ := key
  refine ⟨lb, hr, ?_, ?_⟩
  · obtain ⟨lb1, e1, _⟩ := LoadBalancer.tick_safe_step lb hs
    exact ⟨lb1, e1⟩
  · intro hq
    have hc := LoadBalancer.tick_safe_adjust lb hs hq
    refine ⟨hc, ?_, ?_⟩
    · have := hc.1
      have := hc.2
      omega
    · cases hl : lb.requestQueue.requestQueue with
      | nil => exact absurd hl hq
      | cons front rest =>
        refine ⟨front, ?_, ?_⟩
        · simp [RequestQueue.get_front_request, LoadBalancer.adjust_servers_queue, hl]
        · simp [RequestQueue.set_front_request, LoadBalancer.adjust_servers_queue, hl]

/-- Witness for C4 (amended): the driver's construction `LoadBalancer lb(0, 8080, 3)`, two
submissions and one tick. -/
theorem C4_tick_safe_witness :
    ∃ lb, (LoadBalancer.new 0 8080 3).run
        [Call.add_request (req 2), Call.add_request (req 1), Call.distribute_requests] = .ok lb
      ∧ (∃ lb1, lb.distribute_requests = .ok lb1)
      ∧ (lb.requestQueue.requestQueue ≠ [] →
          (0 ≤ lb.adjust_servers.currentServer
            ∧ lb.adjust_servers.currentServer < (lb.adjust_servers.servers.length : Int))
          ∧ lb.adjust_servers.servers.length ≠ 0
          ∧ ∃ front, lb.adjust_servers.requestQueue.get_front_request = .ok front
              ∧ (lb.adjust_servers.requestQueue.set_front_request
                  front.decrement_task_time).requestQueue ≠ []) :=
  C4_tick_safe 0 8080 3 _ (Or.inr (by decide))

/-- C5: a completed tick changes or removes only the front request (the queue afterwards
is the old queue with the front's task time reduced by one, or the old queue without its
front; an empty queue stays empty), and after any submissions `xs` followed by `k` ticks
the queue is the submitted sequence without its first `m` requests for some `m`, the first
remaining one possibly with a lowered task time: requests leave in submission order.  The
run completes from every tick-safe state. -/
theorem C5_queue_fifo (lb : LoadBalancer) (xs : List Request) (k : Nat) :
    (∀ lb1, lb.distribute_requests = .ok lb1 →
        LoadBalancer.queue_step lb.requestQueue.requestQueue lb1.requestQueue.requestQueue)
    ∧ (∀ lb1, lb.run (xs.map Call.add_request ++ List.replicate k Call.distribute_requests)
            = .ok lb1 →
        LoadBalancer.fifo_remainder (lb.requestQueue.requestQueue ++ xs)
          lb1.requestQueue.requestQueue)
    ∧ (lb.tick_safe →
        ∃ lb1, lb.run (xs.map Call.add_request ++ List.replicate k Call.distribute_requests)
            = .ok lb1) := by
  have hrun : lb.run (xs.map Call.add_request ++ List.replicate k Call.distribute_requests)
      = LoadBalancer.ticks
          { lb with requestQueue := { requestQueue := lb.requestQueue.requestQueue ++ xs } } k := by
    rw [LoadBalancer.run_append, LoadBalancer.run_submissions]
    exact LoadBalancer.run_ticks k _
  refine ⟨LoadBalancer.distribute_requests_queue_step lb, ?_, ?_⟩
  · intro lb1 h
    rw [hrun] at h
    exact LoadBalancer.ticks_fifo_remainder _ k _ lb1 ⟨0, Or.inl rfl⟩ h
  · intro hs
    rw [hrun]
    obtain ⟨lb1, e1, _⟩ := LoadBalancer.ticks_total k
      { lb with requestQueue := { requestQueue := lb.requestQueue.requestQueue ++ xs } } hs
    exact ⟨lb1, e1⟩

/-- Witness for C5: one server, requests with 1, 2 and 3 units submitted in that order,
then two ticks: the first request is gone and the second is at the front with one unit
left. -/
theorem C5_queue_fifo_witness :
    ∃ lb1, (LoadBalancer.new 1 8080 4).run
        ([req 1, req 2, req 3].map Call.add_request
          ++ List.replicate 2 Call.distribute_requests) = .ok lb1
      ∧ LoadBalancer.fifo_remainder ((LoadBalancer.new 1 8080 4).requestQueue.requestQueue
          ++ [req 1, req 2, req 3]) lb1.requestQueue.requestQueue := by
  have h := C5_queue_fifo (LoadBalancer.new 1 8080 4) [req 1, req 2, req 3] 2
  obtain ⟨lb1, e1⟩ := h.2.2 (Or.inl (by decide))
  exact ⟨lb1, e1, h.2.1 lb1 e1⟩

/-- C6: when every submitted request has a positive task time, every state a sequence of
`add_request` and `distribute_requests` calls reaches from construction has only positive
task times in its queue, and in such a state a tick that brings the front request to 0
(task time 1 before the tick) leaves the queue without it: a request at 0 is never seen
between ticks.  The sequence completes whenever `initialServers >= 1` or
`maxServers >= 1`. -/
theorem C6_completion_atomicity (initialServers portBase maxServers : Int)
    (calls : List Call) (hsub : ∀ r, Call.add_request r ∈ calls → 0 < r.taskTime) :
    (∀ lb, (LoadBalancer.new initialServers portBase maxServers).run calls = .ok lb →
        (∀ r ∈ lb.requestQueue.requestQueue, 0 < r.taskTime)
        ∧ (∀ lb1 front rest, lb.requestQueue.requestQueue = front :: rest →
            front.taskTime ≤ 1 → lb.distribute_requests = .ok lb1 →
            lb1.requestQueue.requestQueue = rest))
    ∧ ((1 ≤ initialServers ∨ 1 ≤ maxServers) →
        ∃ lb, (LoadBalancer.new initialServers portBase maxServers).run calls = .ok lb) := by
  refine ⟨?_, ?_⟩
  · intro lb hr
    refine ⟨?_, ?_⟩
    · exact LoadBalancer.run_preserves
        (fun lb => ∀ r ∈ lb.requestQueue.requestQueue, 0 < r.taskTime)
        (fun r => 0 < r.taskTime)
        (fun lb r hq hp x hx => by
          rw [LoadBalancer.add_request_queue] at hx
          rcases List.mem_append.mp hx with hx | hx
          · exact hp x hx
          · rw [List.mem_singleton.mp hx]
            exact hq)
        (fun lb lb1 hp ht => LoadBalancer.distribute_requests_positive lb lb1 hp ht)
        calls _ lb hsub
        (by
          intro r hr
          cases hr)
        hr
    · intro lb1 front rest hq h1 ht
      rcases LoadBalancer.distribute_requests_ok_inv lb lb1 ht with ⟨h0, _⟩ | ⟨f, r, hq2, _, e⟩
      · rw [hq] at h0
        cases h0
      · rw [hq] at hq2
        obtain ⟨hf, hrest⟩ := List.cons.inj hq2
        rw [e]
        show LoadBalancer.queue_after f r = rest
        rw [← hf, ← hrest]
        simp [LoadBalancer.queue_after, h1]
  · intro h
    obtain ⟨lb, hr, _⟩ := LoadBalancer.run_total calls _
      (LoadBalancer.new_tick_safe initialServers portBase maxServers h)
    exact ⟨lb, hr⟩

/-- Witness for C6: one server, requests with 1 and 2 units, two ticks; the run completes
and the request left in the queue has a positive task time. -/
theorem C6_completion_atomicity_witness :
    ∃ lb, (LoadBalancer.new 1 8080 3).run
        [Call.add_request (req 1), Call.add_request (req 2),
         Call.distribute_requests, Call.distribute_requests] = .ok lb
      ∧ ∀ r ∈ lb.requestQueue.requestQueue, 0 < r.taskTime := by
  have h := C6_completion_atomicity 1 8080 3
    [Call.add_request (req 1), Call.add_request (req 2),
     Call.distribute_requests, Call.distribute_requests]
    (by
      intro r hr
      simp only [List.mem_cons, Call.add_request.injEq, List.mem_singleton, reduceCtorEq,
        or_false, List.not_mem_nil] at hr
      rcases hr with hr | hr <;> rw [hr] <;> decide)
  obtain ⟨lb, hr⟩ := h.2 (Or.inl (by decide))
  exact ⟨lb, hr, (h.1 lb hr).1⟩

/-- C7: on a request with task time `r >= 0`, `decrement_task_time` yields
`max (r - 1) 0`; and across a completed tick on a queue of non-negative task times, the
requests still queued are the old ones from position `d` on (`d = 1` when the front was
removed, else `d = 0`), each with its old task time, except that the front may have
exactly one unit less; none is negative.  The tick completes in every tick-safe state. -/
theorem C7_work_monotone (lb : LoadBalancer)
    (hnn : ∀ r ∈ lb.requestQueue.requestQueue, 0 ≤ r.taskTime) :
    (∀ r : Request, 0 ≤ r.taskTime →
        r.decrement_task_time.taskTime = max (r.taskTime - 1) 0)
    ∧ (∀ lb1, lb.distribute_requests = .ok lb1 →
        ∃ d, (d = 0 ∨ d = 1)
          ∧ lb1.requestQueue.requestQueue.length + d = lb.requestQueue.requestQueue.length
          ∧ ∀ i r1, lb1.requestQueue.requestQueue[i]? = some r1 →
              0 ≤ r1.taskTime
              ∧ ∃ r0, lb.requestQueue.requestQueue[i + d]? = some r0
                  ∧ (r1.taskTime = r0.taskTime
                      ∨ (i = 0 ∧ d = 0 ∧ r1.taskTime = r0.taskTime - 1)))
    ∧ (lb.tick_safe → ∃ lb1, lb.distribute_requests = .ok lb1) := by
  refine ⟨?_, ?_, ?_⟩
  · intro r hr
    unfold Request.decrement_task_time
    split
    · show r.taskTime - 1 = max (r.taskTime - 1) 0
      omega
    · omega
  · intro lb1 ht
    rcases LoadBalancer.distribute_requests_queue_step lb lb1 ht with
      ⟨ha, hb⟩ | ⟨front, rest, ha, hb⟩
    · refine ⟨0, Or.inl rfl, by rw [ha, hb]; rfl, ?_⟩
      intro i r1 hi
      rw [hb] at hi
      simp at hi
    · rcases hb with hb | ⟨hb1, hb2⟩
      · refine ⟨1, Or.inr rfl, by rw [ha, hb]; rfl, ?_⟩
        intro i r1 hi
        rw [hb] at hi
        have hmem : r1 ∈ rest := List.getElem?_mem hi
        refine ⟨hnn r1 (by rw [ha]; exact List.mem_cons_of_mem _ hmem), r1, ?_, Or.inl rfl⟩
        rw [ha]
        simpa using hi
      · refine ⟨0, Or.inl rfl, by rw [ha, hb2]; rfl, ?_⟩
        intro i r1 hi
        rw [hb2] at hi
        cases i with
        | zero =>
          have hr1 : r1 = { front with taskTime := front.taskTime - 1 } := by
            simpa using hi.symm
          refine ⟨?_, front, by rw [ha]; simp, Or.inr ⟨rfl, rfl, ?_⟩⟩
          · rw [hr1]
            show 0 ≤ front.taskTime - 1
            omega
          · rw [hr1]
        | succ j =>
          have hj : rest[j]? = some r1 := by simpa using hi
          have hmem : r1 ∈ rest := List.getElem?_mem hj
          refine ⟨hnn r1 (by rw [ha]; exact List.mem_cons_of_mem _ hmem), r1, ?_, Or.inl rfl⟩
          rw [ha]
          simpa using hj
  · intro hs
    obtain ⟨lb1, e1, _⟩ := LoadBalancer.tick_safe_step lb hs
    exact ⟨lb1, e1⟩

/-- Witness for C7: one server, requests with 2 and 3 units; the tick completes and
`decrement_task_time` takes 3 units to `max (3 - 1) 0`. -/
theorem C7_work_monotone_witness :
    (∃ lb1, (LoadBalancer.mk [WebServer.mk 8080] (RequestQueue.mk [req 2, req 3])
        0 3 0 0).distribute_requests = .ok lb1)
    ∧ (req 3).decrement_task_time.taskTime = max ((req 3).taskTime - 1) 0 := by
  have h := C7_work_monotone
    (LoadBalancer.mk [WebServer.mk 8080] (RequestQueue.mk [req 2, req 3]) 0 3 0 0)
    (by decide)
  exact ⟨h.2.2 (Or.inl (by decide)), h.1 (req 3) (by decide)⟩

/-- C8: take a state with `n >= 1` servers and cursor `c < n`, and a call sequence in which
every tick finds a non-empty queue and `adjust_servers` leaves the pool at `n` servers
(submissions may come between the ticks).  Then the run completes; its `j`-th tick reads
`servers[currentServer]` at index `(c + j) mod n` and works on the server the pool holds
at that index; the cursor afterwards is `(c + k) mod n` for `k` the number of ticks; and
when `k = n` every server index below `n` is used exactly once. -/
theorem C8_round_robin (lb : LoadBalancer) (calls : List Call) (n : Nat) (hn : 1 ≤ n)
    (hsize : lb.servers.length = n)
    (hc : 0 ≤ lb.currentServer ∧ lb.currentServer < (n : Int))
    (hsteady : ∀ i s, calls[i]? = some Call.distribute_requests →
        lb.run (calls.take i) = .ok s →
        s.requestQueue.requestQueue ≠ [] ∧ s.adjust_servers.servers.length = n) :
    ∃ s, lb.run calls = .ok s
      ∧ (lb.selections calls).map Selection.index
          = (List.range (calls.count Call.distribute_requests)).map
              (fun j : Nat => (lb.currentServer + (j : Int)) % (n : Int))
      ∧ (∀ sel ∈ lb.selections calls, lb.server_at sel.index = .ok sel.server)
      ∧ s.currentServer
          = (lb.currentServer + ((calls.count Call.distribute_requests : Nat) : Int))
              % (n : Int)
      ∧ (calls.count Call.distribute_requests = n →
          ∀ w : Nat, w < n →
            ((lb.selections calls).map Selection.index).count (w : Int) = 1) := by
  have hn1 := hn
  obtain ⟨s, h1, h2, h3, h4⟩ := LoadBalancer.selections_round_robin n calls lb hsize
    ⟨hc.1, by rw [hsize]; exact hc.2⟩ hsteady
  refine ⟨s, h1, h2, h3, h4, ?_⟩
  intro hk w hw
  rw [h2, hk]
  exact LoadBalancer.round_robin_once lb.currentServer n w hw

/-- Witness for C8: two servers (ports 8080, 8081), cursor 1, four queued five-unit
requests; a tick, a submission and another tick work on index 1 (port 8081) and then on
index 0 (port 8080), and leave the cursor at 1. -/
theorem C8_round_robin_witness :
    ∃ s, (LoadBalancer.mk [WebServer.mk 8080, WebServer.mk 8081]
            (RequestQueue.mk (List.replicate 4 (req 5))) 1 2 0 0).run
          [Call.distribute_requests, Call.add_request (req 1), Call.distribute_requests]
          = .ok s
      ∧ (LoadBalancer.mk [WebServer.mk 8080, WebServer.mk 8081]
            (RequestQueue.mk (List.replicate 4 (req 5))) 1 2 0 0).selections
          [Call.distribute_requests, Call.add_request (req 1), Call.distribute_requests]
          = [Selection.mk 1 (WebServer.mk 8081), Selection.mk 0 (WebServer.mk 8080)]
      ∧ ((LoadBalancer.mk [WebServer.mk 8080, WebServer.mk 8081]
            (RequestQueue.mk (List.replicate 4 (req 5))) 1 2 0 0).selections
          [Call.distribute_requests, Call.add_request (req 1), Call.distribute_requests]).map
            Selection.index = [1, 0]
      ∧ s.currentServer = 1 := by
  obtain ⟨s, h1, h2, _, h4, _⟩ := C8_round_robin
    (LoadBalancer.mk [WebServer.mk 8080, WebServer.mk 8081]
      (RequestQueue.mk (List.replicate 4 (req 5))) 1 2 0 0)
    [Call.distribute_requests, Call.add_request (req 1), Call.distribute_requests]
    2 (by decide) rfl (by decide)
    (by
      intro i s hi hr
      rcases i with _ | _ | _ | i
      · cases hr
        exact ⟨by decide, by decide⟩
      · cases hi
      · cases hr
        exact ⟨by decide, by decide⟩
      · simp at hi)
  exact ⟨s, h1, rfl, by rw [h2]; decide, by rw [h4]; decide⟩

/-- C9, as stated, fails: two servers and four queued one-unit requests are inside the
band (`2 * 2 <= 4 <= 5 * 2`), the first tick completes a request, and the second tick,
finding three requests, removes a server. -/
theorem C9_hysteresis_counterexample :
    ∃ lb lb1, (LoadBalancer.new 2 8080 2).run (List.replicate 4 (Call.add_request (req 1)))
        = .ok lb
      ∧ 2 * lb.servers.length ≤ lb.requestQueue.requestQueue.length
      ∧ lb.requestQueue.requestQueue.length ≤ 5 * lb.servers.length
      ∧ lb.ticks 2 = .ok lb1
      ∧ lb1.servers.length ≠ lb.servers.length := by
  refine ⟨_, _, rfl, ?_, ?_, rfl, ?_⟩ <;> decide

/-- C9, amended: for a state with pool size `n` and queue depth `q`, `2 n <= q <= 5 n`,
`k` consecutive ticks with no submission in between leave the pool size at `n` whenever
`k <= q - 2 n + 1` (no tick of the run can start with fewer than `2 n` requests) or
`n <= 1`; the ticks complete from every tick-safe state. -/
theorem C9_hysteresis (lb : LoadBalancer) (k : Nat)
    (hlo : 2 * lb.servers.length ≤ lb.requestQueue.requestQueue.length)
    (hhi : lb.requestQueue.requestQueue.length ≤ 5 * lb.servers.length)
    (hk : lb.servers.length ≤ 1
      ∨ k + 2 * lb.servers.length ≤ lb.requestQueue.requestQueue.length + 1) :
    (∀ lb1, lb.ticks k = .ok lb1 → lb1.servers.length = lb.servers.length)
    ∧ (lb.tick_safe → ∃ lb1, lb.ticks k = .ok lb1) := by
  have hlo1 := hlo
  refine ⟨fun lb1 hr => LoadBalancer.ticks_hysteresis k lb lb1 hhi hk hr, ?_⟩
  intro hs
  obtain ⟨lb1, e1, _⟩ := LoadBalancer.ticks_total k lb hs
  exact ⟨lb1, e1⟩

/-- Witness for C9 (amended): two servers and six queued one-unit requests; three ticks
(`3 <= 6 - 4 + 1`) complete and leave two servers. -/
theorem C9_hysteresis_witness :
    ∃ lb1, (LoadBalancer.mk [WebServer.mk 8080, WebServer.mk 8081]
              (RequestQueue.mk (List.replicate 6 (req 1))) 0 2 0 0).ticks 3 = .ok lb1
      ∧ lb1.servers.length = 2 := by
  have h := C9_hysteresis
    (LoadBalancer.mk [WebServer.mk 8080, WebServer.mk 8081]
      (RequestQueue.mk (List.replicate 6 (req 1))) 0 2 0 0) 3
    (by decide) (by decide) (Or.inr (by decide))
  obtain ⟨lb1, e1⟩ := h.2 (Or.inl (by decide))
  exact ⟨lb1, e1, h.1 lb1 e1⟩

/-- C10: on an empty queue `distribute_requests` completes and returns the state it was
given: servers, cursor, active-server count, ceiling and queue are all unchanged. -/
theorem C10_idle_tick_noop (lb : LoadBalancer) (h : lb.requestQueue.is_empty = true) :
    lb.distribute_requests = .ok lb := by
  unfold LoadBalancer.distribute_requests LoadBalancer.distribute_requests_with_server
  simp [h]

/-- Witness for C10: a freshly constructed balancer with three servers has an empty queue
and its tick returns it unchanged. -/
theorem C10_idle_tick_noop_witness :
    (LoadBalancer.new 3 8080 5).requestQueue.is_empty = true
      ∧ (LoadBalancer.new 3 8080 5).distribute_requests = .ok (LoadBalancer.new 3 8080 5) :=
  ⟨rfl, C10_idle_tick_noop (LoadBalancer.new 3 8080 5) rfl⟩

/-- C11: for a balancer with at least one server whose queued requests all have positive
task times, of total `r_1 + ... + r_k`, and with no further submission: after `j` ticks
that complete, the queue is empty exactly when `j` has reached the total (so it is empty
after exactly that many ticks and non-empty after fewer).  The ticks complete whenever
the cursor indexes an existing server. -/
theorem C11_units_count_ticks (lb : LoadBalancer) (j : Nat)
    (hn : 1 ≤ lb.servers.length)
    (hpos : ∀ r ∈ lb.requestQueue.requestQueue, 0 < r.taskTime) :
    (∀ lb1, lb.ticks j = .ok lb1 →
        (lb1.requestQueue.requestQueue = []
          ↔ LoadBalancer.work_left lb.requestQueue.requestQueue ≤ (j : Int)))
    ∧ (lb.cursor_ok → ∃ lb1, lb.ticks j = .ok lb1 ∧ 1 ≤ lb1.servers.length) := by
  have hn1 := hn
  refine ⟨?_, ?_⟩
  · intro lb1 hr
    obtain ⟨hp1, hw⟩ := LoadBalancer.ticks_work_left j lb lb1 hpos hr
    have hpos1 := LoadBalancer.work_left_pos _ hp1
    constructor
    · intro he
      rw [he] at hw
      simp only [LoadBalancer.work_left] at hw
      omega
    · intro hle
      by_contra hne
      have := hpos1.2 hne
      omega
  · intro hc
    have key := LoadBalancer.run_invariant (fun lb => lb.cursor_ok) (fun _ _ h => h)
      (fun lb h => by
        obtain ⟨lb1, e1, c1, _⟩ := LoadBalancer.distribute_requests_cursor_ok lb h
        exact ⟨lb1, e1, c1⟩)
      (List.replicate j Call.distribute_requests) lb hc
    obtain ⟨lb1, e1, c0, c1⟩ := key
    rw [LoadBalancer.run_ticks] at e1
    exact ⟨lb1, e1, by omega⟩

/-- Witness for C11 (scenario A): one server and one request with 3 units; three ticks
complete, the queue is then empty and the pool still has one server. -/
theorem C11_units_count_ticks_witness :
    ∃ lb1, ((LoadBalancer.new 1 8080 10).add_request (req 3)).ticks 3 = .ok lb1
      ∧ lb1.requestQueue.requestQueue = [] ∧ lb1.servers.length = 1 := by
  have h := C11_units_count_ticks ((LoadBalancer.new 1 8080 10).add_request (req 3)) 3
    (by decide) (by decide)
  have e : ((LoadBalancer.new 1 8080 10).add_request (req 3)).ticks 3
      = .ok (LoadBalancer.new 1 8080 10) := rfl
  exact ⟨_, e, (h.1 _ e).mpr (by decide), rfl⟩

/-- C12, evaluated at the failing input: a balancer constructed with one server and port
base 8081, after six submissions and one tick (which grows the pool), holds two servers
that both carry port 8081. -/
theorem C12_distinct_ports_failing :
    ∃ lb, (LoadBalancer.new 1 8081 5).run
        (List.replicate 6 (Call.add_request (req 2)) ++ [Call.distribute_requests]) = .ok lb
      ∧ lb.servers.map WebServer.get_port = [8081, 8081]
      ∧ ¬ (lb.servers.map WebServer.get_port).Nodup := by
  refine ⟨_, rfl, ?_, ?_⟩ <;> decide

/-- C13, evaluated at the failing input: on a balancer constructed with one server and
port base 9000 (ceiling 5), `add_server` appends one server, and its port is
`8080 + 1 = 8081`, not `9000 + 1`. -/
theorem C13_grow_identity_failing :
    (LoadBalancer.new 1 9000 5).add_server.servers = [WebServer.mk 9000, WebServer.mk 8081]
      ∧ (8081 : Int) ≠ 9000 + 1 := by
  constructor <;> decide

/-- C14: `add_server` on a pool whose size has reached `maxServers`, and `remove_server`
on a pool of at most one server, return the state they were given: servers, cursor,
active-server count, ceiling and queue are unchanged, and neither can fault. -/
theorem C14_ceiling_floor_noop (lb : LoadBalancer) :
    (lb.maxServers ≤ (lb.servers.length : Int) → lb.add_server = lb)
    ∧ (lb.servers.length ≤ 1 → lb.remove_server = lb) := by
  constructor
  · intro h
    unfold LoadBalancer.add_server
    rw [if_neg (by omega)]
  · intro h
    unfold LoadBalancer.remove_server
    rw [if_neg (by omega)]

/-- Witness for C14: a balancer constructed with one server and ceiling 1 is at the
ceiling and at the floor; both operations return it unchanged. -/
theorem C14_ceiling_floor_noop_witness :
    (LoadBalancer.new 1 8080 1).add_server = LoadBalancer.new 1 8080 1
      ∧ (LoadBalancer.new 1 8080 1).remove_server = LoadBalancer.new 1 8080 1 :=
  ⟨(C14_ceiling_floor_noop (LoadBalancer.new 1 8080 1)).1 (by decide),
   (C14_ceiling_floor_noop (LoadBalancer.new 1 8080 1)).2 (by decide)⟩

/-- C15, as stated, fails on the empty pool the driver starts from: `add_server` below
the ceiling makes it a pool of one server, and `remove_server` never removes the only
server, so the original (empty) sequence is not restored. -/
theorem C15_shrink_lifo_counterexample :
    ((LoadBalancer.new 0 8080 3).servers.length : Int) < (LoadBalancer.new 0 8080 3).maxServers
      ∧ (LoadBalancer.new 0 8080 3).add_server.remove_server.servers
          ≠ (LoadBalancer.new 0 8080 3).servers := by
  constructor <;> decide

/-- C15, amended: on a pool `w_0, ..., w_{n-1}` with `n > 1`, `remove_server` yields exactly
`w_0, ..., w_{n-2}`; hence `add_server` on a non-empty pool below the ceiling followed by
`remove_server` restores the original sequence of servers. -/
theorem C15_shrink_lifo (lb : LoadBalancer) :
    (∀ ws w, lb.servers = ws ++ [w] → ws ≠ [] → lb.remove_server.servers = ws)
    ∧ (lb.servers ≠ [] → (lb.servers.length : Int) < lb.maxServers →
        lb.add_server.remove_server.servers = lb.servers) := by
  constructor
  · intro ws w h hne
    have hlen : lb.servers.length > 1 := by
      rw [h, List.length_append]
      have := List.length_pos.mpr hne
      simp only [List.length_singleton]
      omega
    rw [LoadBalancer.remove_server_servers lb hlen, h, List.dropLast_concat]
  · intro hne hlt
    have hpos := List.length_pos.mpr hne
    have hadd := LoadBalancer.add_server_servers lb hlt
    have hlen : lb.add_server.servers.length > 1 := by
      rw [hadd, List.length_append]
      simp only [List.length_singleton]
      omega
    rw [LoadBalancer.remove_server_servers _ hlen, hadd, List.dropLast_concat]

/-- Witness for C15 (amended): two servers under ceiling 4; removing yields the first
server alone, and adding then removing gives the two servers back. -/
theorem C15_shrink_lifo_witness :
    (LoadBalancer.new 2 8080 4).remove_server.servers = [WebServer.mk 8080]
      ∧ (LoadBalancer.new 2 8080 4).add_server.remove_server.servers
          = (LoadBalancer.new 2 8080 4).servers :=
  ⟨(C15_shrink_lifo (LoadBalancer.new 2 8080 4)).1 [WebServer.mk 8080] (WebServer.mk 8081)
      (by decide) (by decide),
   (C15_shrink_lifo (LoadBalancer.new 2 8080 4)).2 (by decide) (by decide)⟩

/-- C16, as stated, fails for `process_next_request`: on an empty queue it does not fail,
it returns the queue as it was. -/
theorem C16_empty_queue_ops_counterexample :
    RequestQueue.new.requestQueue = []
      ∧ RequestQueue.new.process_next_request = RequestQueue.new := by
  constructor <;> rfl

/-- C16, amended: on an empty queue `get_front_request` and `remove_request` have no
defined result (the embedding reports the fault `emptyQueue`), while
`process_next_request`, which tests for emptiness itself, silently leaves the queue as it
is; on a non-empty queue `get_front_request` returns the front request and both removal
operations remove exactly the front request. -/
theorem C16_empty_queue_ops (q : RequestQueue) :
    (q.requestQueue = [] →
        q.get_front_request = .error Fault.emptyQueue
        ∧ q.remove_request = .error Fault.emptyQueue
        ∧ q.process_next_request = q)
    ∧ (∀ front rest, q.requestQueue = front :: rest →
        q.get_front_request = .ok front
        ∧ q.remove_request = .ok { requestQueue := rest }
        ∧ q.process_next_request = { requestQueue := rest }) := by
  constructor
  · intro h
    simp [RequestQueue.get_front_request, RequestQueue.remove_request,
      RequestQueue.process_next_request, h]
  · intro front rest h
    simp [RequestQueue.get_front_request, RequestQueue.remove_request,
      RequestQueue.process_next_request, h]

/-- Witness for C16 (amended): a queue holding requests with 2 and 3 units. -/
theorem C16_empty_queue_ops_witness :
    (RequestQueue.mk [req 2, req 3]).get_front_request = .ok (req 2)
      ∧ (RequestQueue.mk [req 2, req 3]).remove_request = .ok { requestQueue := [req 3] }
      ∧ (RequestQueue.mk [req 2, req 3]).process_next_request = { requestQueue := [req 3] } :=
  (C16_empty_queue_ops (RequestQueue.mk [req 2, req 3])).2 (req 2) [req 3] rfl

/-- C17: `add_request` never fails and appends the request at the tail: the new queue is
the old queue followed by the request (one longer, the old requests unchanged and in
order), and servers, cursor, active-server count and ceiling are unchanged. -/
theorem C17_submit_appends (lb : LoadBalancer) (r : Request) :
    lb.call (Call.add_request r) = .ok (lb.add_request r)
      ∧ (lb.add_request r).requestQueue.requestQueue = lb.requestQueue.requestQueue ++ [r]
      ∧ (lb.add_request r).requestQueue.requestQueue.length
          = lb.requestQueue.requestQueue.length + 1
      ∧ (lb.add_request r).servers = lb.servers
      ∧ (lb.add_request r).currentServer = lb.currentServer
      ∧ (lb.add_request r).activeServers = lb.activeServers
      ∧ (lb.add_request r).maxServers = lb.maxServers := by
  refine ⟨rfl, rfl, ?_, rfl, rfl, rfl, rfl⟩
  rw [LoadBalancer.add_request_queue, List.length_append]
  rfl

/-- C18, evaluated at the failing input: a balancer constructed with two servers reports 0
active servers while its pool holds two, and after one submission and one tick (which
shrinks the pool) it reports -1 while its pool holds one. -/
theorem C18_active_count_failing :
    (LoadBalancer.new 2 8080 5).get_active_server_count = 0
      ∧ (LoadBalancer.new 2 8080 5).servers.length = 2
      ∧ ∃ lb, (LoadBalancer.new 2 8080 5).run
            [Call.add_request (req 1), Call.distribute_requests] = .ok lb
          ∧ lb.get_active_server_count = -1 ∧ lb.servers.length = 1 := by
  refine ⟨by decide, by decide, _, rfl, by decide, by decide⟩

/-- C19, as stated, fails: four servers, eight one-unit submissions and one tick give
cursor 1, which points at a server that survives a shrink; `remove_server` nevertheless
moves the cursor to 0, while `1 mod (4 - 1) = 1`. -/
theorem C19_shrink_cursor_counterexample :
    ∃ lb, (LoadBalancer.new 4 8080 4).run
        (List.replicate 8 (Call.add_request (req 1)) ++ [Call.distribute_requests]) = .ok lb
      ∧ lb.servers.length = 4 ∧ lb.currentServer = 1
      ∧ lb.remove_server.servers.length = 3
      ∧ lb.remove_server.currentServer = 0
      ∧ lb.remove_server.currentServer ≠ lb.currentServer % ((lb.servers.length : Int) - 1) := by
  refine ⟨_, rfl, ?_, ?_, ?_, ?_, ?_⟩ <;> decide

/-- C19, amended: when `remove_server` removes the last server of a pool of size `n > 1`
with cursor `c`, `0 <= c < n`, the cursor afterwards is `c - 1` if `c` is not 0 and 0
otherwise, whether or not `c` pointed at the removed server; it indexes one of the
`n - 1` surviving servers, and it equals `c mod (n - 1)` exactly when `c = 0` or `n = 2`. -/
theorem C19_shrink_cursor (lb : LoadBalancer) (hn : 1 < lb.servers.length)
    (hc : 0 ≤ lb.currentServer ∧ lb.currentServer < (lb.servers.length : Int)) :
    lb.remove_server.servers.length = lb.servers.length - 1
      ∧ lb.remove_server.currentServer
          = (if lb.currentServer = 0 then 0 else lb.currentServer - 1)
      ∧ 0 ≤ lb.remove_server.currentServer
      ∧ lb.remove_server.currentServer < (lb.remove_server.servers.length : Int)
      ∧ (lb.remove_server.currentServer = lb.currentServer % ((lb.servers.length : Int) - 1)
          ↔ (lb.currentServer = 0 ∨ lb.servers.length = 2)) := by
  obtain ⟨h0, h1⟩ := hc
  have hlen : lb.remove_server.servers.length = lb.servers.length - 1 := by
    rw [LoadBalancer.remove_server_servers lb hn, List.length_dropLast]
  have hcur : lb.remove_server.currentServer
      = (if lb.currentServer = 0 then 0 else lb.currentServer - 1) := by
    unfold LoadBalancer.remove_server
    simp only [hn, if_true]
    by_cases hz : lb.currentServer = 0
    · simp [hz]
    · simp [hz]
  refine ⟨hlen, hcur, ?_, ?_, ?_⟩
  · rw [hcur]
    split_ifs <;> omega
  · rw [hcur, hlen]
    split_ifs <;> omega
  · rw [hcur]
    by_cases hz : lb.currentServer = 0
    · simp [hz]
    · rw [if_neg hz]
      by_cases hlast : lb.currentServer = (lb.servers.length : Int) - 1
      · rw [hlast, Int.emod_self]
        constructor
        · intro h
          right
          omega
        · intro h
          rcases h with h | h
          · omega
          · omega
      · have hlt : lb.currentServer < (lb.servers.length : Int) - 1 := by omega
        rw [Int.emod_eq_of_lt h0 hlt]
        constructor
        · intro h
          omega
        · intro h
          rcases h with h | h
          · exact absurd h hz
          · omega

/-- Witness for C19 (amended): four servers and cursor 2; after `remove_server` the pool has
three servers and the cursor is 1. -/
theorem C19_shrink_cursor_witness :
    (LoadBalancer.mk [WebServer.mk 8080, WebServer.mk 8081, WebServer.mk 8082,
        WebServer.mk 8083] RequestQueue.new 2 4 0 0).remove_server.currentServer = 1 := by
  have h := (C19_shrink_cursor
    (LoadBalancer.mk [WebServer.mk 8080, WebServer.mk 8081, WebServer.mk 8082,
      WebServer.mk 8083] RequestQueue.new 2 4 0 0) (by decide) (by decide)).2.1
  rw [h]
  decide

/-- C20: for two consecutive ticks with no submission in between, if the first one grows
the pool the second does not shrink it, and if the first one shrinks the pool the second
does not grow it.  Both ticks complete from every tick-safe state. -/
theorem C20_no_flap (lb : LoadBalancer) :
    (∀ lb1 lb2, lb.distribute_requests = .ok lb1 → lb1.distribute_requests = .ok lb2 →
        (lb.servers.length < lb1.servers.length → lb1.servers.length ≤ lb2.servers.length)
        ∧ (lb1.servers.length < lb.servers.length → lb2.servers.length ≤ lb1.servers.length))
    ∧ (lb.tick_safe →
        ∃ lb1 lb2, lb.distribute_requests = .ok lb1 ∧ lb1.distribute_requests = .ok lb2) := by
  constructor
  · intro lb1 lb2 h1 h2
    by_cases hq : lb.requestQueue.requestQueue = []
    · have e1 : lb1 = lb := by
        rw [LoadBalancer.distribute_requests_idle lb hq] at h1
        exact (Except.ok.inj h1).symm
      rw [e1]
      exact ⟨fun h => absurd h (lt_irrefl _), fun h => absurd h (lt_irrefl _)⟩
    · obtain ⟨s1, m1, q1a, q1b⟩ := LoadBalancer.distribute_requests_sizes lb lb1 h1 hq
      have hqpos := List.length_pos.mpr hq
      rw [LoadBalancer.adjust_servers_length] at s1
      by_cases hq1 : lb1.requestQueue.requestQueue = []
      · have e2 : lb2 = lb1 := by
          rw [LoadBalancer.distribute_requests_idle lb1 hq1] at h2
          exact (Except.ok.inj h2).symm
        rw [e2]
        exact ⟨fun _ => le_refl _, fun _ => le_refl _⟩
      · obtain ⟨s2, _, _, _⟩ := LoadBalancer.distribute_requests_sizes lb1 lb2 h2 hq1
        rw [LoadBalancer.adjust_servers_length, m1] at s2
        constructor
        · intro hgrow
          split_ifs at s1 s2 <;> omega
        · intro hshrink
          split_ifs at s1 s2 <;> omega
  · intro hs
    obtain ⟨lb1, e1, s1⟩ := LoadBalancer.tick_safe_step lb hs
    obtain ⟨lb2, e2, _⟩ := LoadBalancer.tick_safe_step lb1 s1
    exact ⟨lb1, lb2, e1, e2⟩

/-- Witness for C20: one server under ceiling 3 and six queued two-unit requests; the
first tick grows the pool to two servers and the second leaves at least two. -/
theorem C20_no_flap_witness :
    ∃ lb1 lb2,
      (LoadBalancer.mk [WebServer.mk 8080] (RequestQueue.mk (List.replicate 6 (req 2)))
          0 3 0 0).distribute_requests = .ok lb1
      ∧ lb1.distribute_requests = .ok lb2
      ∧ lb1.servers.length = 2 ∧ 2 ≤ lb2.servers.length := by
  have h := C20_no_flap
    (LoadBalancer.mk [WebServer.mk 8080] (RequestQueue.mk (List.replicate 6 (req 2))) 0 3 0 0)
  obtain ⟨lb1, lb2, e1, e2⟩ := h.2 (Or.inl (by decide))
  have hl : lb1.servers.length = 2 := by
    have e1c : (LoadBalancer.mk [WebServer.mk 8080]
        (RequestQueue.mk (List.replicate 6 (req 2))) 0 3 0 0).distribute_requests
        = .ok (LoadBalancer.mk [WebServer.mk 8080, WebServer.mk 8081]
            (RequestQueue.mk (req 1 :: List.replicate 5 (req 2))) 1 3 1 0) := rfl
    rw [e1c] at e1
    rw [← Except.ok.inj e1]
    rfl
  refine ⟨lb1, lb2, e1, e2, hl, ?_⟩
  have hg := (h.1 lb1 lb2 e1 e2).1 (by rw [hl]; decide)
  rw [hl] at hg
  exact hg

/-- C21, as stated, fails: a request whose task time was set to -3 with `set_task_time` is
reported completed although its task time is not 0. -/
theorem C21_completed_iff_zero_counterexample :
    (Request.new.set_task_time (-3)).is_completed = true
      ∧ (Request.new.set_task_time (-3)).get_task_time ≠ 0 := by
  constructor <;> decide

/-- C21, amended: whatever value `t` the task time was set to with `set_task_time`,
`is_completed` returns true if and only if `t <= 0`; for `t >= 0` that is if and only if
the task time equals 0. -/
theorem C21_completed_iff_zero (r : Request) (t : Int) :
    ((r.set_task_time t).is_completed = true ↔ (r.set_task_time t).get_task_time ≤ 0)
    ∧ (0 ≤ t →
        ((r.set_task_time t).is_completed = true ↔ (r.set_task_time t).get_task_time = 0)) := by
  have hget : (r.set_task_time t).get_task_time = t := rfl
  have hdef : (r.set_task_time t).is_completed = decide (t ≤ 0) := rfl
  rw [hget, hdef]
  constructor
  · simp
  · intro h0
    simp only [decide_eq_true_eq]
    omega

/-- Witness for C21 (amended): task times 0 and 4. -/
theorem C21_completed_iff_zero_witness :
    (Request.new.set_task_time 0).is_completed = true
      ∧ ¬ ((Request.new.set_task_time 4).is_completed = true) :=
  ⟨((C21_completed_iff_zero Request.new 0).2 (by decide)).mpr rfl,
   fun h => absurd (((C21_completed_iff_zero Request.new 4).2 (by decide)).mp h) (by decide)⟩

/-- C23: in a state with `n >= 1` servers and a valid cursor the tick completes, and when
it grows the pool (to `n + 1` servers) the server it works on, the one its
`servers[currentServer]` yields, was read at the cursor's index before the tick, below
`n`, and is the server the pool held at that index before the tick: a server that
already existed, not the one just appended at index `n`. -/
theorem C23_grow_selects_existing (lb : LoadBalancer) (hn : 1 ≤ lb.servers.length)
    (hc : 0 ≤ lb.currentServer ∧ lb.currentServer < (lb.servers.length : Int)) :
    (∃ lb1 sel, lb.distribute_requests_with_server = .ok (lb1, sel))
    ∧ (∀ lb1 sel, lb.distribute_requests_with_server = .ok (lb1, sel) →
        lb.servers.length < lb1.servers.length →
        lb1.servers.length = lb.servers.length + 1
        ∧ ∃ s, sel = some s
            ∧ s.index = lb.currentServer
            ∧ s.index < (lb.servers.length : Int)
            ∧ s.index ≠ (lb.servers.length : Int)
            ∧ lb.server_at lb.currentServer = .ok s.server
            ∧ s.server ∈ lb.servers
            ∧ lb1.server_at s.index = .ok s.server) := by
  have hn1 := hn
  obtain ⟨h0, h1⟩ := hc
  constructor
  · cases hq : lb.requestQueue.requestQueue with
    | nil => exact ⟨lb, none, LoadBalancer.with_server_idle lb hq⟩
    | cons front rest =>
      obtain ⟨server, _, e⟩ := LoadBalancer.with_server_busy lb front rest hq
        (LoadBalancer.adjust_servers_cursor_ok lb ⟨h0, h1⟩)
      exact ⟨_, _, e⟩
  · intro lb1 sel ht hgrow
    rcases LoadBalancer.with_server_ok_inv lb lb1 sel ht with
      ⟨_, e, _⟩ | ⟨front, rest, server, _, _, hat, e1, e2⟩
    · rw [e] at hgrow
      exact absurd hgrow (lt_irrefl _)
    · have hs : lb1.servers = lb.adjust_servers.servers := by rw [e1]
      rw [hs] at hgrow
      obtain ⟨hadd, hcur⟩ := LoadBalancer.adjust_servers_grow lb hgrow
      have hlt : lb.currentServer.toNat < lb.servers.length := by omega
      have hget : (lb.servers ++ [WebServer.mk (8080 + (lb.servers.length : Int))])[
          lb.currentServer.toNat]? = some (lb.servers.get ⟨_, hlt⟩) := by
        rw [List.getElem?_append_left hlt]
        exact List.getElem?_eq_getElem hlt
      have hget0 : lb.servers[lb.currentServer.toNat]? = some (lb.servers.get ⟨_, hlt⟩) :=
        List.getElem?_eq_getElem hlt
      have hat1 : lb.adjust_servers.server_at lb.currentServer
          = .ok (lb.servers.get ⟨_, hlt⟩) := by
        unfold LoadBalancer.server_at
        rw [hadd]
        simp [h0, hget]
      have hat0 : lb.server_at lb.currentServer = .ok (lb.servers.get ⟨_, hlt⟩) := by
        unfold LoadBalancer.server_at
        simp [h0, hget0]
      rw [hcur, hat1] at hat
      have hserver : server = lb.servers.get ⟨_, hlt⟩ := (Except.ok.inj hat).symm
      refine ⟨?_, { index := lb.adjust_servers.currentServer, server := server }, e2,
        hcur, ?_, ?_, ?_, ?_, ?_⟩
      · rw [hs, hadd, List.length_append]
        rfl
      · show lb.adjust_servers.currentServer < _
        rw [hcur]
        exact h1
      · show lb.adjust_servers.currentServer ≠ _
        rw [hcur]
        omega
      · show lb.server_at lb.currentServer = .ok server
        rw [hat0, hserver]
      · show server ∈ lb.servers
        rw [hserver]
        exact List.get_mem _ _ _
      · show lb1.server_at lb.adjust_servers.currentServer = .ok server
        rw [LoadBalancer.server_at_congr lb.adjust_servers lb1 hs, hcur, hat1, hserver]

/-- Witness for C23: two servers (ports 8080, 8081) under ceiling 4, cursor 1 and eleven
queued requests; the tick grows the pool to three servers and works on index 1, the
server on port 8081, not on the server just added on port 8082. -/
theorem C23_grow_selects_existing_witness :
    (LoadBalancer.mk [WebServer.mk 8080, WebServer.mk 8081]
        (RequestQueue.mk (List.replicate 11 (req 2))) 1 4 0 0).distribute_requests_with_server
      = .ok (LoadBalancer.mk [WebServer.mk 8080, WebServer.mk 8081, WebServer.mk 8082]
              (RequestQueue.mk (req 1 :: List.replicate 10 (req 2))) 2 4 1 0,
             some (Selection.mk 1 (WebServer.mk 8081)))
    ∧ ∃ s, some (Selection.mk 1 (WebServer.mk 8081)) = some s
        ∧ s.index = 1 ∧ s.index < 2 ∧ s.index ≠ 2
        ∧ s.server ∈ [WebServer.mk 8080, WebServer.mk 8081] := by
  have h := C23_grow_selects_existing
    (LoadBalancer.mk [WebServer.mk 8080, WebServer.mk 8081]
      (RequestQueue.mk (List.replicate 11 (req 2))) 1 4 0 0) (by decide) (by decide)
  have e : (LoadBalancer.mk [WebServer.mk 8080, WebServer.mk 8081]
      (RequestQueue.mk (List.replicate 11 (req 2))) 1 4 0 0).distribute_requests_with_server
      = .ok (LoadBalancer.mk [WebServer.mk 8080, WebServer.mk 8081, WebServer.mk 8082]
              (RequestQueue.mk (req 1 :: List.replicate 10 (req 2))) 2 4 1 0,
             some (Selection.mk 1 (WebServer.mk 8081))) := rfl
  obtain ⟨_, s, hs, hi, hlt, hne, _, hmem, _⟩ := h.2 _ _ e (by decide)
  exact ⟨e, s, hs, hi, hlt, hne, hmem⟩

/-- C24: in every state a sequence of `add_request` and `distribute_requests` calls reaches
from a balancer constructed with `k` initial servers, `get_active_server_count` equals the
pool size minus `k` (negative once the pool has shrunk below `k`).  The sequence completes
whenever `k >= 1` or `maxServers >= 1`. -/
theorem C24_active_count_offset (k : Nat) (portBase maxServers : Int) (calls : List Call) :
    (∀ lb, (LoadBalancer.new (k : Int) portBase maxServers).run calls = .ok lb →
        lb.get_active_server_count = (lb.servers.length : Int) - (k : Int))
    ∧ ((1 ≤ k ∨ 1 ≤ maxServers) →
        ∃ lb, (LoadBalancer.new (k : Int) portBase maxServers).run calls = .ok lb) := by
  constructor
  · intro lb hr
    have key := LoadBalancer.run_preserves
      (fun lb => lb.activeServers - (lb.servers.length : Int) = - (k : Int)) (fun _ => True)
      (fun lb r _ h => h)
      (fun lb lb1 h ht => by
        show lb1.activeServers - (lb1.servers.length : Int) = - (k : Int)
        rw [LoadBalancer.distribute_requests_active lb lb1 ht]
        exact h)
      calls _ lb (fun _ _ => trivial)
      (by
        show (LoadBalancer.new (k : Int) portBase maxServers).activeServers
          - ((LoadBalancer.new (k : Int) portBase maxServers).servers.length : Int) = - (k : Int)
        rw [LoadBalancer.new_servers_length]
        show (0 : Int) - (((k : Int).toNat : Nat) : Int) = - (k : Int)
        omega)
      hr
    show lb.activeServers = _
    have key2 : lb.activeServers - (lb.servers.length : Int) = - (k : Int) := key
    omega
  · intro h
    obtain ⟨lb, hr, _⟩ := LoadBalancer.run_total calls _
      (LoadBalancer.new_tick_safe (k : Int) portBase maxServers (by omega))
    exact ⟨lb, hr⟩

/-- Witness for C24: two initial servers, one submission and one tick (which shrinks the
pool to one server): the run completes and the count is `1 - 2`. -/
theorem C24_active_count_offset_witness :
    ∃ lb, (LoadBalancer.new 2 8080 5).run
        [Call.add_request (req 1), Call.distribute_requests] = .ok lb
      ∧ lb.get_active_server_count = (lb.servers.length : Int) - 2 := by
  have h := C24_active_count_offset 2 8080 5
    [Call.add_request (req 1), Call.distribute_requests]
  obtain ⟨lb, hr⟩ := h.2 (Or.inl (by decide))
  exact ⟨lb, hr, h.1 lb hr⟩
